import Mathlib

/-!
# SeaBIOS POST (`src/post.c`): relocation engine, low-memory layout and boot sequencing

A shallow embedding of `src/post.c`.

* Memory is a map from byte addresses to bytes; 32-bit words are little endian (x86).
* Machine integers are natural numbers reduced modulo `2^32` (`u32`, `s32`, pointers),
  `2^16` (`u16`) or `2^8` (`u8`) wherever the C code stores or adds them.
* The relocation tables (`_reloc_abs_start[]` ... "Symbols populated by the build") are
  arrays of `u32` in that same memory: a table pointer `u32 *reloc` is the address of a
  slot, `reloc++` adds 4 and `*reloc` is read from memory each time the loop comes to it.
* Functions that do not return (`panic`, the entry function) end the run; the run is
  described by the memory at that point, the sequence of calls made so far and the memory
  after each of them.
-/

namespace SeaBIOS

/-! ## Bytes, words and memory -/

/-- Byte-addressed memory. -/
abbrev Mem := Nat → Fin 256

/-- Truncation of a number to a `u8`. -/
def u8 (v : Nat) : Fin 256 := ⟨v % 256, Nat.mod_lt v (by decide)⟩

/-- Addition of 32-bit values (wraps modulo `2^32`). -/
def add32 (a b : Nat) : Nat := (a + b) % 2 ^ 32

/-- Subtraction of 32-bit values (wraps modulo `2^32`). -/
def sub32 (a b : Nat) : Nat := (a % 2 ^ 32 + (2 ^ 32 - b % 2 ^ 32)) % 2 ^ 32

/-- Two-complement negation of a 32-bit value, the C expression `-delta`. -/
def neg32 (a : Nat) : Nat := (2 ^ 32 - a % 2 ^ 32) % 2 ^ 32

/-- Read of a `u8` at address `a`. -/
def read8 (m : Mem) (a : Nat) : Nat := (m a).val

/-- Store of a `u8` at address `a`. -/
def write8 (m : Mem) (a v : Nat) : Mem := fun x => if x = a then u8 v else m x

/-- Read of a `u16` at address `a` (little endian). -/
def read16 (m : Mem) (a : Nat) : Nat := (m a).val + 256 * (m (a + 1)).val

/-- Store of a `u16` at address `a` (little endian, the value is truncated to 16 bits). -/
def write16 (m : Mem) (a v : Nat) : Mem :=
  fun x => if x = a then u8 v else if x = a + 1 then u8 (v / 256) else m x

/-- Read of a `u32` at address `a` (little endian). -/
def read32 (m : Mem) (a : Nat) : Nat :=
  (m a).val + 256 * (m (a + 1)).val + 65536 * (m (a + 2)).val + 16777216 * (m (a + 3)).val

/-- Store of a `u32` at address `a` (little endian, the value is truncated to 32 bits). -/
def write32 (m : Mem) (a v : Nat) : Mem :=
  fun x =>
    if x = a then u8 v
    else if x = a + 1 then u8 (v / 256)
    else if x = a + 2 then u8 (v / 65536)
    else if x = a + 3 then u8 (v / 16777216)
    else m x

/-- The function `memset(d, c, n)` (of `util.c`, not in the source tree): the `n` bytes at
`d` receive the byte `c`. -/
def memset (m : Mem) (d c n : Nat) : Mem :=
  fun x => if d ≤ x ∧ x < d + n then u8 c else m x

/-- Modelled from the spec: `memcpy` of `util.c` is not in the source tree; the spec has
"Copy the init region's bytes verbatim to the newly allocated destination", so byte `i`
of the destination receives byte `i` of the source as it was before the call. -/
def memcpy (m : Mem) (d s n : Nat) : Mem :=
  fun x => if d ≤ x ∧ x < d + n then m (s + (x - d)) else m x

/-- Pointer arithmetic `p + off` on the 32-bit flat address space. -/
def ptr_add (p off : Nat) : Nat := (p + off) % 2 ^ 32

/-! ## `updateRelocs` -/

/-- The statement `*((u32*)(dest + *reloc)) += delta;` of `updateRelocs`: the entry
`*reloc` is read from memory at the address `reloc`. -/
def relocStep (dest delta reloc : Nat) (m : Mem) : Mem :=
  write32 m (ptr_add dest (read32 m reloc))
    (read32 m (ptr_add dest (read32 m reloc)) + delta)

/-- The loop `for (reloc = rstart; reloc < rend; reloc++)` of `updateRelocs`, started at
`reloc`; `reloc` is a `u32 *`, so `reloc++` adds 4.  The first argument bounds the number
of iterations and `rend - reloc` is enough (`updateRelocs_fuel`). -/
def updateRelocsLoop (dest rend delta : Nat) : Nat → Nat → Mem → Mem
  | 0, _, m => m
  | fuel + 1, reloc, m =>
    if reloc < rend then
      updateRelocsLoop dest rend delta fuel (reloc + 4) (relocStep dest delta reloc m)
    else m

/-- The function `updateRelocs(dest, rstart, rend, delta)`:
"Update given relocs for the code at 'dest' with a given 'delta'". -/
def updateRelocs (m : Mem) (dest rstart rend delta : Nat) : Mem :=
  updateRelocsLoop dest rend delta (rend - rstart) rstart m

/-- The addresses of the slots of the table `[rstart, rend)`: `rstart`, `rstart + 4`, ...
below `rend`, in the order the loop visits them. -/
def relocSlots (rstart rend : Nat) : List Nat :=
  (List.range ((rend - rstart + 3) / 4)).map (fun i => rstart + 4 * i)

/-- The entries of the table `[rstart, rend)` as memory `m` holds them. -/
def relocEntries (m : Mem) (rstart rend : Nat) : List Nat :=
  (relocSlots rstart rend).map (read32 m)

/-- The addresses `dest + entry` of the words that the entries of the table `[rstart, rend)`
name, as memory `m` holds the table. -/
def relocAddrs (m : Mem) (dest rstart rend : Nat) : List Nat :=
  (relocEntries m rstart rend).map (ptr_add dest)

/-- Two 32-bit words at addresses `p` and `q` share no byte. -/
def Apart (p q : Nat) : Prop := p + 4 ≤ q ∨ q + 4 ≤ p

instance (p q : Nat) : Decidable (Apart p q) := by unfold Apart; infer_instance

/-- The word at `p` lies outside the block `[d, d + n)`. -/
def Outside (p d n : Nat) : Prop := p + 4 ≤ d ∨ d + n ≤ p

instance (p d n : Nat) : Decidable (Outside p d n) := by unfold Outside; infer_instance

/-- One patch `*(u32*)p += delta`. -/
def patch32 (delta : Nat) (m : Mem) (p : Nat) : Mem := write32 m p (read32 m p + delta)

/-! ## `reloc_preinit` -/

/-- "Symbols populated by the build" that `reloc_preinit` declares `extern`: 32-bit
addresses (of the tables, of the regions) and the alignment. -/
structure Symbols where
  code32flat_start : Nat
  _reloc_min_align : Nat
  _reloc_abs_start : Nat
  _reloc_abs_end : Nat
  _reloc_rel_start : Nat
  _reloc_rel_end : Nat
  _reloc_init_start : Nat
  _reloc_init_end : Nat
  code32init_start : Nat
  code32init_end : Nat
  _reloc_datalow_start : Nat
  _reloc_datalow_end : Nat
  datalow_start : Nat
  datalow_end : Nat
  final_datalow_start : Nat

/-- The function calls `reloc_preinit` makes. -/
inductive Call where
  | memalign_tmp (align size : Nat)
  | panic
  | dprintf
  | updateRelocs (dest rstart rend delta : Nat)
  | memcpy (d s n : Nat)
  | barrier
  | func (addr arg : Nat)
  deriving DecidableEq, Repr

/-- A run of `reloc_preinit` up to the call that does not return (`panic` or the entry
function): the memory at that call, the calls made, in order, and for each call the
memory after it (for the last call, the memory it is made on). -/
structure Run where
  mem : Mem
  calls : List Call
  mems : List Mem

/-- The local `u32 initsize = code32init_end - code32init_start;`. -/
def initsize (s : Symbols) : Nat := sub32 s.code32init_end s.code32init_start

/-- The local `void *codedest = memalign_tmp(codealign, initsize);` where `memalign_tmp`
(of `pmm.c`, not in the source tree) is a parameter: the pointer it returns, `0` for
`NULL`. -/
def codedest (s : Symbols) (memalign_tmp : Nat → Nat → Nat) : Nat :=
  memalign_tmp s._reloc_min_align (initsize s)

/-- The local `s32 delta = codedest - (void*)code32init_start;`, as the `u32` that
`updateRelocs` receives. -/
def initdelta (s : Symbols) (memalign_tmp : Nat → Nat → Nat) : Nat :=
  sub32 (codedest s memalign_tmp) s.code32init_start

/-- The argument `final_datalow_start - datalow_start` of the first `updateRelocs`. -/
def datalowdelta (s : Symbols) : Nat := sub32 s.final_datalow_start s.datalow_start

/-- The function that `reloc_preinit` finally calls:
`if (f >= (void*)code32init_start && f < (void*)code32init_end) func = f + delta;`. -/
def relocFunc (s : Symbols) (memalign_tmp : Nat → Nat → Nat) (f : Nat) : Nat :=
  if s.code32init_start ≤ f ∧ f < s.code32init_end then
    ptr_add f (initdelta s memalign_tmp)
  else f

/-- The function `reloc_preinit(f, arg)`: "Relocate init code and then call a function at
its new address." -/
def reloc_preinit (CONFIG_RELOCATE_INIT : Bool) (s : Symbols)
    (memalign_tmp : Nat → Nat → Nat) (f arg : Nat) (m : Mem) : Run :=
  if !CONFIG_RELOCATE_INIT then
    { mem := m, calls := [Call.func f arg], mems := [m] }
  else
    -- Allocate space for init code.
    let dest := codedest s memalign_tmp
    if dest = 0 then
      { mem := m
        calls := [Call.memalign_tmp s._reloc_min_align (initsize s), Call.panic]
        mems := [m, m] }
    else
      -- Copy code and update relocs (init absolute, init relative, and runtime)
      let m1 := updateRelocs m s.code32flat_start s._reloc_datalow_start
        s._reloc_datalow_end (datalowdelta s)
      let delta := initdelta s memalign_tmp
      let m2 := memcpy m1 dest s.code32init_start (initsize s)
      let m3 := updateRelocs m2 dest s._reloc_abs_start s._reloc_abs_end delta
      let m4 := updateRelocs m3 dest s._reloc_rel_start s._reloc_rel_end (neg32 delta)
      let m5 := updateRelocs m4 s.code32flat_start s._reloc_init_start
        s._reloc_init_end delta
      { mem := m5
        calls :=
          [ Call.memalign_tmp s._reloc_min_align (initsize s),
            Call.dprintf,
            Call.updateRelocs s.code32flat_start s._reloc_datalow_start
              s._reloc_datalow_end (datalowdelta s),
            Call.dprintf,
            Call.memcpy dest s.code32init_start (initsize s),
            Call.updateRelocs dest s._reloc_abs_start s._reloc_abs_end delta,
            Call.updateRelocs dest s._reloc_rel_start s._reloc_rel_end (neg32 delta),
            Call.updateRelocs s.code32flat_start s._reloc_init_start s._reloc_init_end delta,
            Call.barrier,
            Call.func (relocFunc s memalign_tmp f) arg ]
        mems := [m, m, m1, m1, m2, m3, m4, m5, m5, m5] }

/-- The absolute table: the entries of `[_reloc_abs_start, _reloc_abs_end)` in `m`. -/
def absTable (s : Symbols) (m : Mem) : List Nat :=
  relocEntries m s._reloc_abs_start s._reloc_abs_end

/-- The relative table: the entries of `[_reloc_rel_start, _reloc_rel_end)` in `m`. -/
def relTable (s : Symbols) (m : Mem) : List Nat :=
  relocEntries m s._reloc_rel_start s._reloc_rel_end

/-- The cross table: the entries of `[_reloc_init_start, _reloc_init_end)` in `m`, offsets
from `code32flat_start` of words of the fixed region that point into the init region. -/
def crossTable (s : Symbols) (m : Mem) : List Nat :=
  relocEntries m s._reloc_init_start s._reloc_init_end

/-- The low-data table: the entries of `[_reloc_datalow_start, _reloc_datalow_end)` in
`m`. -/
def datalowTable (s : Symbols) (m : Mem) : List Nat :=
  relocEntries m s._reloc_datalow_start s._reloc_datalow_end

/-- The addresses of the slots of the four tables. -/
def tableSlots (s : Symbols) : List Nat :=
  relocSlots s._reloc_abs_start s._reloc_abs_end
    ++ relocSlots s._reloc_rel_start s._reloc_rel_end
    ++ relocSlots s._reloc_init_start s._reloc_init_end
    ++ relocSlots s._reloc_datalow_start s._reloc_datalow_end

/-- The storage of the tables is left alone: no slot of a table shares a byte with the
destination block `[D, D + S)`, with a word of the low-data table or with a word of the
cross table (tables as `m` holds them). -/
def TablesKept (s : Symbols) (m : Mem) (D S : Nat) : Prop :=
  ∀ t ∈ tableSlots s,
    Outside t D S ∧
    (∀ l ∈ datalowTable s m, Apart (ptr_add s.code32flat_start l) t) ∧
    (∀ c ∈ crossTable s m, Apart (ptr_add s.code32flat_start c) t)

instance (s : Symbols) (m : Mem) (D S : Nat) : Decidable (TablesKept s m D S) := by
  unfold TablesKept; infer_instance

/-- A layout with a 64-byte init region at `0x10000`, the fixed region based at `0x8000`
and four tables of one slot each at `0x9000`, `0x9004`, `0x9008` and `0x900c`. -/
def sampleSymbols : Symbols :=
  { code32flat_start := 0x8000
    _reloc_min_align := 16
    _reloc_abs_start := 0x9000
    _reloc_abs_end := 0x9004
    _reloc_rel_start := 0x9004
    _reloc_rel_end := 0x9008
    _reloc_init_start := 0x9008
    _reloc_init_end := 0x900c
    code32init_start := 0x10000
    code32init_end := 0x10040
    _reloc_datalow_start := 0x900c
    _reloc_datalow_end := 0x9010
    datalow_start := 0xd0000
    datalow_end := 0xd1000
    final_datalow_start := 0xe0000 }

/-- An allocator that returns the block 4096 bytes above the sample init region. -/
def sampleAlloc : Nat → Nat → Nat := fun _ _ => 0x11000

/-- An allocator that has no space. -/
def failingAlloc : Nat → Nat → Nat := fun _ _ => 0

/-- A memory for the sample layout.  The init region holds the pointer `0x10008` at offset
4, the relative word 100 at offset 16 and the byte `0x5a` at offset 32; the fixed region
holds the pointer `0x10020` at `0x8100`; the tables hold the absolute entry 4, the
relative entry 16, the cross entry `0x100` and the low-data entry `0x200`. -/
def sampleMem : Mem :=
  fun x => if x = 0x10004 then 0x08 else if x = 0x10006 then 0x01
    else if x = 0x10010 then 100
    else if x = 0x10020 then 0x5a
    else if x = 0x8100 then 0x20 else if x = 0x8102 then 0x01
    else if x = 0x9000 then 4
    else if x = 0x9004 then 16
    else if x = 0x9009 then 0x01
    else if x = 0x900d then 0x02
    else 0

/-- The sample memory with the low-data entry `0x1000` in place of `0x200`: the word it
names, at `0x8000 + 0x1000`, is the slot of the absolute table. -/
def aliasMem : Mem := fun x => if x = 0x900d then 0x10 else sampleMem x

/-- The sample memory with one more table at `[0x9100, 0x910c)` that lists offset 4 twice
and offset 16 once. -/
def sampleDupMem : Mem :=
  fun x => if x = 0x9100 then 4 else if x = 0x9104 then 4 else if x = 0x9108 then 16
    else sampleMem x

/-- A memory that is zero but for a table at `[0x10100, 0x10108)` with the entries `0x104`
and `0x10`: for the base `0x10000` the first entry names the slot of the second. -/
def selfTableMem : Mem :=
  fun x => if x = 0x10100 then 0x04 else if x = 0x10101 then 0x01
    else if x = 0x10104 then 0x10 else 0

/-! ## `ivt_init` -/

/-- A real-mode far pointer `struct segoff_s`. -/
structure SegOff where
  seg : Nat
  offset : Nat
  deriving DecidableEq, Repr

/-- The macro `SEGOFF(s, o)`. -/
def SEGOFF (s o : Nat) : SegOff := { seg := s, offset := o }

/-- The 16-bit entry points that `ivt_init` installs. -/
inductive Entry where
  | entry_iret_official
  | entry_hwpic1
  | entry_hwpic2
  | entry_02
  | entry_10
  | entry_11
  | entry_12
  | entry_13_official
  | entry_14
  | entry_15
  | entry_16
  | entry_17
  | entry_18
  | entry_19_official
  | entry_1a
  | entry_40
  deriving DecidableEq, Repr

/-- The interrupt vector table: the far pointer stored for each vector. -/
abbrev Ivt := Nat → SegOff

/-- The macro `SET_IVT(vector, segoff)`. -/
def SET_IVT (ivt : Ivt) (vector : Nat) (segoff : SegOff) : Ivt :=
  fun i => if i = vector then segoff else ivt i

/-- The loop `for (i = lo; i < hi; i++) body`. -/
def forLoop {α : Type} (lo hi : Nat) (body : Nat → α → α) (s : α) : α :=
  (List.range' lo (hi - lo)).foldl (fun s i => body i s) s

/-- The function `ivt_init`.  The macro `FUNC16` (the far pointer of a 16-bit entry point,
from headers that are not in the source tree) is a parameter. -/
def ivt_init (FUNC16 : Entry → SegOff) (ivt : Ivt) : Ivt :=
  -- Initialize all vectors to the default handler.
  let ivt := forLoop 0 256 (fun i t => SET_IVT t i (FUNC16 Entry.entry_iret_official)) ivt
  -- Initialize all hw vectors to a default hw handler.
  let ivt := forLoop 0x08 (0x0f + 1) (fun i t => SET_IVT t i (FUNC16 Entry.entry_hwpic1)) ivt
  let ivt := forLoop 0x70 (0x77 + 1) (fun i t => SET_IVT t i (FUNC16 Entry.entry_hwpic2)) ivt
  -- Initialize software handlers.
  let ivt := SET_IVT ivt 0x02 (FUNC16 Entry.entry_02)
  let ivt := SET_IVT ivt 0x10 (FUNC16 Entry.entry_10)
  let ivt := SET_IVT ivt 0x11 (FUNC16 Entry.entry_11)
  let ivt := SET_IVT ivt 0x12 (FUNC16 Entry.entry_12)
  let ivt := SET_IVT ivt 0x13 (FUNC16 Entry.entry_13_official)
  let ivt := SET_IVT ivt 0x14 (FUNC16 Entry.entry_14)
  let ivt := SET_IVT ivt 0x15 (FUNC16 Entry.entry_15)
  let ivt := SET_IVT ivt 0x16 (FUNC16 Entry.entry_16)
  let ivt := SET_IVT ivt 0x17 (FUNC16 Entry.entry_17)
  let ivt := SET_IVT ivt 0x18 (FUNC16 Entry.entry_18)
  let ivt := SET_IVT ivt 0x19 (FUNC16 Entry.entry_19_official)
  let ivt := SET_IVT ivt 0x1a (FUNC16 Entry.entry_1a)
  let ivt := SET_IVT ivt 0x40 (FUNC16 Entry.entry_40)
  -- INT 60h-66h reserved for user interrupt
  let ivt := forLoop 0x60 (0x66 + 1) (fun i t => SET_IVT t i (SEGOFF 0 0)) ivt
  -- set vector 0x79 to zero
  SET_IVT ivt 0x79 (SEGOFF 0 0)

/-- The specific-handler map of `ivt_init`: the software handler installed at a vector,
if there is one. -/
def specificHandler (i : Nat) : Option Entry :=
  if i = 0x02 then some Entry.entry_02
  else if i = 0x10 then some Entry.entry_10
  else if i = 0x11 then some Entry.entry_11
  else if i = 0x12 then some Entry.entry_12
  else if i = 0x13 then some Entry.entry_13_official
  else if i = 0x14 then some Entry.entry_14
  else if i = 0x15 then some Entry.entry_15
  else if i = 0x16 then some Entry.entry_16
  else if i = 0x17 then some Entry.entry_17
  else if i = 0x18 then some Entry.entry_18
  else if i = 0x19 then some Entry.entry_19_official
  else if i = 0x1a then some Entry.entry_1a
  else if i = 0x40 then some Entry.entry_40
  else none

/-- The vectors that `ivt_init` sets to `SEGOFF(0, 0)`: `0x60`-`0x66` and `0x79`. -/
def zeroedVector (i : Nat) : Bool := (0x60 ≤ i && i ≤ 0x66) || i = 0x79

/-- Far pointers used to evaluate `ivt_init`: segment `0xf000`, one offset per entry
point. -/
def sampleFUNC16 (e : Entry) : SegOff :=
  SEGOFF 0xf000 (match e with
    | Entry.entry_iret_official => 0xff53
    | Entry.entry_hwpic1 => 0xd440
    | Entry.entry_hwpic2 => 0xd450
    | Entry.entry_02 => 0xe2c3
    | Entry.entry_10 => 0xf065
    | Entry.entry_11 => 0xf84d
    | Entry.entry_12 => 0xf841
    | Entry.entry_13_official => 0xe3fe
    | Entry.entry_14 => 0xe739
    | Entry.entry_15 => 0xf859
    | Entry.entry_16 => 0xe82e
    | Entry.entry_17 => 0xefd2
    | Entry.entry_18 => 0xd460
    | Entry.entry_19_official => 0xe6f2
    | Entry.entry_1a => 0xfe6e
    | Entry.entry_40 => 0xd470)

/-- A table filled with a non-zero far pointer, as the content before `ivt_init`. -/
def sampleIvt : Ivt := fun _ => SEGOFF 0xdead 0xbeef

/-! ## `bda_init` -/

/-- One region of the memory map (`struct e820entry`). -/
structure e820entry where
  start : Nat
  size : Nat
  type : Nat
  deriving DecidableEq, Repr

/-- Modelled from the spec: `add_e820` of `memmap.c` is not in the source tree; the spec
has "`registerRegion(base, length, class)` — appends a region; no validation of overlap
... never fails". -/
def add_e820 (map : List e820entry) (start size type : Nat) : List e820entry :=
  map ++ [{ start := start, size := size, type := type }]

/-- The macro `MAKE_FLATPTR(seg, off)`: the flat address of a real-mode `seg:off`. -/
def MAKE_FLATPTR (seg off : Nat) : Nat := seg * 16 + off

/-- The build constants and structure layouts that `bda_init` takes from headers that are
not in the source tree (`config.h`, `biosvar.h`, `memmap.h`). -/
structure BdaConfig where
  SEG_BDA : Nat
  /-- The size `sizeof(struct bios_data_area_s)`. -/
  sizeof_bda : Nat
  /-- The offset of the `u16` field `mem_size_kb` in `struct bios_data_area_s`. -/
  off_mem_size_kb : Nat
  /-- The offset of the `u16` field `ebda_seg` in `struct bios_data_area_s`. -/
  off_ebda_seg : Nat
  /-- The size `sizeof(struct extended_bios_data_area_s)`. -/
  sizeof_ebda : Nat
  /-- The offset of the `u8` field `size` in `struct extended_bios_data_area_s`. -/
  off_size : Nat
  BUILD_LOWRAM_END : Nat
  EBDA_SIZE_START : Nat
  EBDA_SEGMENT_START : Nat
  E820_RESERVED : Nat
  /-- The value `&ExtraStack[BUILD_EXTRA_STACK_SIZE] - datalow_base`. -/
  extra_stack_top : Nat

/-- The state `bda_init` works on: memory, the memory map and the global `StackPos`. -/
structure LowState where
  mem : Mem
  e820 : List e820entry
  StackPos : Nat

/-- The value an `int` expression `a - b` has once stored in a `u16`. -/
def sub16 (a b : Nat) : Nat := (a % 65536 + (65536 - b % 65536)) % 65536

/-- The function `bda_init`. -/
def bda_init (c : BdaConfig) (s : LowState) : LowState :=
  let bda := MAKE_FLATPTR c.SEG_BDA 0
  let m := memset s.mem bda 0 c.sizeof_bda
  let esize := c.EBDA_SIZE_START
  -- SET_BDA(mem_size_kb, BUILD_LOWRAM_END/1024 - esize);
  let m := write16 m (bda + c.off_mem_size_kb) (sub16 (c.BUILD_LOWRAM_END / 1024) esize)
  let ebda_seg := c.EBDA_SEGMENT_START % 65536
  -- SET_BDA(ebda_seg, ebda_seg);
  let m := write16 m (bda + c.off_ebda_seg) ebda_seg
  -- get_ebda_ptr() is MAKE_FLATPTR(GET_BDA(ebda_seg), 0)
  let ebda := MAKE_FLATPTR (read16 m (bda + c.off_ebda_seg)) 0
  let m := memset m ebda 0 c.sizeof_ebda
  -- ebda->size = esize;
  let m := write8 m (ebda + c.off_size) esize
  -- add_e820((u32)MAKE_FLATPTR(ebda_seg, 0), GET_EBDA(ebda_seg, size) * 1024, E820_RESERVED);
  let map := add_e820 s.e820 (MAKE_FLATPTR ebda_seg 0 % 2 ^ 32)
    (read8 m (MAKE_FLATPTR ebda_seg c.off_size) * 1024) c.E820_RESERVED
  { mem := m, e820 := map, StackPos := c.extra_stack_top }

/-- The conditions on the constants and layouts under which the fields `bda_init` writes
are distinct objects that hold their values: each field lies in its structure, the two
fields of the status block do not overlap, the two blocks do not overlap, and the values
fit the `u16` and `u8` fields. -/
def BdaConfig.WellFormed (c : BdaConfig) : Prop :=
  c.off_mem_size_kb + 2 ≤ c.sizeof_bda ∧
  c.off_ebda_seg + 2 ≤ c.sizeof_bda ∧
  (c.off_mem_size_kb + 2 ≤ c.off_ebda_seg ∨ c.off_ebda_seg + 2 ≤ c.off_mem_size_kb) ∧
  c.off_size < c.sizeof_ebda ∧
  (c.SEG_BDA * 16 + c.sizeof_bda ≤ c.EBDA_SEGMENT_START * 16 ∨
    c.EBDA_SEGMENT_START * 16 + c.sizeof_ebda ≤ c.SEG_BDA * 16) ∧
  c.EBDA_SIZE_START < 256 ∧
  c.EBDA_SIZE_START ≤ c.BUILD_LOWRAM_END / 1024 ∧
  c.BUILD_LOWRAM_END / 1024 < 65536 ∧
  c.EBDA_SEGMENT_START < 65536

instance (c : BdaConfig) : Decidable c.WellFormed := by
  unfold BdaConfig.WellFormed; infer_instance

/-- Sample values of the constants: the status block is the 256 bytes at segment `0x40`,
low memory ends at `0xa0000` and the extended block is the last KiB below it. -/
def sampleBdaConfig : BdaConfig :=
  { SEG_BDA := 0x40
    sizeof_bda := 0x100
    off_mem_size_kb := 0x13
    off_ebda_seg := 0x0e
    sizeof_ebda := 0x121
    off_size := 0
    BUILD_LOWRAM_END := 0xa0000
    EBDA_SIZE_START := 1
    EBDA_SEGMENT_START := 0x9fc0
    E820_RESERVED := 2
    extra_stack_top := 0x800 }

/-! ## `prepareboot` -/

/-- The functions `prepareboot` calls, all from files that are not in the source tree:
the finalisation steps act on memory in ways this file does not constrain, and
`checksum(buf, len)` returns a number computed from memory. -/
structure PrepareBoot where
  bcv_prepboot : Mem → Mem
  cdrom_prepboot : Mem → Mem
  pmm_prepboot : Mem → Mem
  malloc_prepboot : Mem → Mem
  memmap_prepboot : Mem → Mem
  checksum : Mem → Nat → Nat → Nat

/-- The sum of the `n` bytes at `a`. -/
def byteSum (m : Mem) (a : Nat) : Nat → Nat
  | 0 => 0
  | n + 1 => byteSum m a n + (m (a + n)).val

/-- The sum of the `n` bytes at `a` other than the byte at address `k`. -/
def byteSumExcept (m : Mem) (a k : Nat) : Nat → Nat
  | 0 => 0
  | n + 1 => byteSumExcept m a k n + (if a + n = k then 0 else (m (a + n)).val)

/-- The value a `u8` has after `x -= y`. -/
def sub8 (x y : Nat) : Nat := (x % 256 + (256 - y % 256)) % 256

/-- The function `prepareboot`; `BiosChecksum` is the address of the `u8` variable of
that name. -/
def prepareboot (p : PrepareBoot) (BUILD_BIOS_ADDR BUILD_BIOS_SIZE BiosChecksum : Nat)
    (m : Mem) : Mem :=
  -- Run BCVs
  let m := p.bcv_prepboot m
  -- Finalize data structures before boot
  let m := p.cdrom_prepboot m
  let m := p.pmm_prepboot m
  let m := p.malloc_prepboot m
  let m := p.memmap_prepboot m
  -- Setup bios checksum.
  write8 m BiosChecksum
    (sub8 (read8 m BiosChecksum) (p.checksum m BUILD_BIOS_ADDR BUILD_BIOS_SIZE))

/-- The memory `prepareboot` has reached when it updates `BiosChecksum`. -/
def beforeChecksum (p : PrepareBoot) (m : Mem) : Mem :=
  p.memmap_prepboot (p.malloc_prepboot (p.pmm_prepboot (p.cdrom_prepboot (p.bcv_prepboot m))))

/-- A four-byte image holding 1, 2, 3 and the correction byte 250 at address `0xf0003`. -/
def sampleImage : Mem :=
  fun x => if x = 0xf0000 then 1 else if x = 0xf0001 then 2 else if x = 0xf0002 then 3
    else if x = 0xf0003 then 250 else 0

/-- Finalisation steps that leave memory alone, and the byte sum as `checksum`. -/
def samplePrepareBoot : PrepareBoot :=
  { bcv_prepboot := id, cdrom_prepboot := id, pmm_prepboot := id, malloc_prepboot := id,
    memmap_prepboot := id, checksum := fun m a n => byteSum m a n % 256 }

/-! ## `maininit`: the sequence of phases -/

/-- The functions called during `maininit`. -/
inductive Phase where
  | interface_init | malloc_fixupreloc_init | qemu_romfile_init | coreboot_cbfs_init
  | ivt_init | bda_init | mathcp_init | boot_init | bios32_init | pmm_init | pnp_init
  | kbd_init | mouse_init
  | device_hardware_setup | usb_setup | ps2port_setup | lpt_setup | serial_setup
  | floppy_setup | ata_setup | ahci_setup | cbfs_payload_setup | ramdisk_setup
  | virtio_blk_setup | virtio_scsi_setup | lsi_scsi_setup | esp_scsi_setup | megasas_setup
  | platform_hardware_setup | pic_setup | timer_setup | pci_setup | smm_setup | mtrr_setup
  | xen_hypercall_setup | smp_setup | coreboot_biostable_setup | xen_biostable_setup
  | qemu_biostable_setup
  | vgarom_setup | wait_threads | optionrom_setup | interactive_bootmenu | prepareboot
  | make_bios_readonly | startBoot
  deriving DecidableEq, Repr

/-- The build flags and the run-time test `usingXen()` that select the sequence. -/
structure BuildConfig where
  CONFIG_THREADS : Bool
  CONFIG_THREAD_OPTIONROMS : Bool
  CONFIG_COREBOOT : Bool
  usingXen : Bool
  deriving DecidableEq, Repr

/-- The call of `interface_init` followed by the calls it makes, in order. -/
def interface_init : List Phase :=
  [ Phase.interface_init,
    Phase.malloc_fixupreloc_init,
    Phase.qemu_romfile_init, Phase.coreboot_cbfs_init,
    Phase.ivt_init, Phase.bda_init,
    Phase.mathcp_init, Phase.boot_init, Phase.bios32_init, Phase.pmm_init, Phase.pnp_init,
    Phase.kbd_init, Phase.mouse_init ]

/-- The call of `device_hardware_setup` followed by the calls it makes, in order. -/
def device_hardware_setup : List Phase :=
  [ Phase.device_hardware_setup,
    Phase.usb_setup, Phase.ps2port_setup, Phase.lpt_setup, Phase.serial_setup,
    Phase.floppy_setup, Phase.ata_setup, Phase.ahci_setup, Phase.cbfs_payload_setup,
    Phase.ramdisk_setup, Phase.virtio_blk_setup, Phase.virtio_scsi_setup,
    Phase.lsi_scsi_setup, Phase.esp_scsi_setup, Phase.megasas_setup ]

/-- The call of `platform_hardware_setup` followed by the calls it makes, in order. -/
def platform_hardware_setup (c : BuildConfig) : List Phase :=
  [ Phase.platform_hardware_setup,
    Phase.pic_setup, Phase.timer_setup, Phase.pci_setup, Phase.smm_setup,
    Phase.mtrr_setup, Phase.xen_hypercall_setup ]
  -- Start hardware initialization (if optionrom threading)
  ++ (if c.CONFIG_THREADS && c.CONFIG_THREAD_OPTIONROMS then device_hardware_setup else [])
  ++ [ Phase.smp_setup ]
  ++ (if c.CONFIG_COREBOOT then [ Phase.coreboot_biostable_setup ]
      else if c.usingXen then [ Phase.xen_biostable_setup ]
      else [ Phase.qemu_biostable_setup ])

/-- The calls made during `maininit`, in order; `ivt_init`, `bda_init`, `prepareboot`,
`startBoot` and the functions of other files are recorded as one call each. -/
def maininit (c : BuildConfig) : List Phase :=
  interface_init
  ++ platform_hardware_setup c
  ++ [ Phase.vgarom_setup ]
  -- Do hardware initialization (if running synchronously)
  ++ (if !c.CONFIG_THREADS || !c.CONFIG_THREAD_OPTIONROMS then
        device_hardware_setup ++ [ Phase.wait_threads ]
      else [])
  ++ [ Phase.optionrom_setup, Phase.interactive_bootmenu, Phase.wait_threads,
       Phase.prepareboot, Phase.make_bios_readonly, Phase.startBoot ]

/-- The sequence `t` has a call of `wait_threads` after a call of `a` and before a call
of `b`. -/
def BarrierBetween (t : List Phase) (a b : Phase) : Prop :=
  ∃ i k j : Nat, i < k ∧ k < j ∧ t[i]? = some a ∧ t[k]? = some Phase.wait_threads ∧ t[j]? = some b

/-! ## Memory lemmas -/

theorem u8_val (v : Nat) : (u8 v).val = v % 256 := rfl

theorem read32_lt (m : Mem) (a : Nat) : read32 m a < 2 ^ 32 := by
  unfold read32
  have h0 := (m a).isLt
  have h1 := (m (a + 1)).isLt
  have h2 := (m (a + 2)).isLt
  have h3 := (m (a + 3)).isLt
  omega

theorem write32_other (m : Mem) (a v x : Nat) (h : x < a ∨ a + 4 ≤ x) :
    write32 m a v x = m x := by
  unfold write32
  have h0 : x ≠ a := by omega
  have h1 : x ≠ a + 1 := by omega
  have h2 : x ≠ a + 2 := by omega
  have h3 : x ≠ a + 3 := by omega
  simp [h0, h1, h2, h3]

theorem read32_write32_same (m : Mem) (a v : Nat) :
    read32 (write32 m a v) a = v % 2 ^ 32 := by
  unfold read32 write32
  simp [u8_val]
  omega

theorem read32_write32_apart (m : Mem) (a v b : Nat) (h : Apart a b) :
    read32 (write32 m a v) b = read32 m b := by
  unfold Apart at h
  unfold read32
  rw [write32_other m a v b (by omega), write32_other m a v (b + 1) (by omega),
    write32_other m a v (b + 2) (by omega), write32_other m a v (b + 3) (by omega)]

theorem write32_read32 (m : Mem) (a : Nat) : write32 m a (read32 m a) = m := by
  funext x
  unfold write32 read32
  have h0 := (m a).isLt
  have h1 := (m (a + 1)).isLt
  have h2 := (m (a + 2)).isLt
  have h3 := (m (a + 3)).isLt
  by_cases hx0 : x = a
  · subst hx0; simp; apply Fin.ext; simp [u8_val]; omega
  by_cases hx1 : x = a + 1
  · subst hx1; simp; apply Fin.ext; simp [u8_val]; omega
  by_cases hx2 : x = a + 2
  · subst hx2; simp; apply Fin.ext; simp [u8_val]; omega
  by_cases hx3 : x = a + 3
  · subst hx3; simp; apply Fin.ext; simp [u8_val]; omega
  simp [hx0, hx1, hx2, hx3]


theorem write32_mod (m : Mem) (a v : Nat) : write32 m a (v % 2 ^ 32) = write32 m a v := by
  funext x
  unfold write32
  have e0 : u8 (v % 2 ^ 32) = u8 v := by apply Fin.ext; simp only [u8_val]; omega
  have e1 : u8 (v % 2 ^ 32 / 256) = u8 (v / 256) := by
    apply Fin.ext; simp only [u8_val]; omega
  have e2 : u8 (v % 2 ^ 32 / 65536) = u8 (v / 65536) := by
    apply Fin.ext; simp only [u8_val]; omega
  have e3 : u8 (v % 2 ^ 32 / 16777216) = u8 (v / 16777216) := by
    apply Fin.ext; simp only [u8_val]; omega
  rw [e0, e1, e2, e3]

theorem write32_congr (m : Mem) (a v w : Nat) (h : v % 2 ^ 32 = w % 2 ^ 32) :
    write32 m a v = write32 m a w := by
  rw [← write32_mod m a v, ← write32_mod m a w, h]

theorem write32_write32_same (m : Mem) (a v w : Nat) :
    write32 (write32 m a v) a w = write32 m a w := by
  funext x
  unfold write32
  split_ifs <;> rfl

theorem write32_comm (m : Mem) (p q v w : Nat) (h : Apart p q) :
    write32 (write32 m q v) p w = write32 (write32 m p w) q v := by
  unfold Apart at h
  funext x
  unfold write32
  split_ifs <;> first | rfl | omega

/-! ## One patch -/

theorem relocStep_eq (dest delta reloc : Nat) (m : Mem) :
    relocStep dest delta reloc m = patch32 delta m (ptr_add dest (read32 m reloc)) := rfl

theorem patch32_byte_out (d : Nat) (m : Mem) (p x : Nat) (h : x < p ∨ p + 4 ≤ x) :
    patch32 d m p x = m x :=
  write32_other m p _ x h

theorem read32_patch32_same (d : Nat) (m : Mem) (p : Nat) :
    read32 (patch32 d m p) p = (read32 m p + d) % 2 ^ 32 :=
  read32_write32_same m p _

theorem read32_patch32_apart (d : Nat) (m : Mem) (p q : Nat) (h : Apart p q) :
    read32 (patch32 d m p) q = read32 m q :=
  read32_write32_apart m p _ q h

theorem patch32_patch32_same (a b : Nat) (m : Mem) (p : Nat) :
    patch32 b (patch32 a m p) p = write32 m p (read32 m p + a + b) := by
  unfold patch32
  rw [read32_write32_same, write32_write32_same]
  apply write32_congr
  omega

theorem patch32_comm (a b : Nat) (m : Mem) (p q : Nat) (h : p = q ∨ Apart p q) :
    patch32 a (patch32 b m q) p = patch32 b (patch32 a m p) q := by
  rcases h with h | h
  · subst h
    rw [patch32_patch32_same, patch32_patch32_same]
    apply write32_congr
    omega
  · have h' : Apart q p := by unfold Apart at h ⊢; omega
    unfold patch32
    rw [read32_write32_apart m q _ p h', read32_write32_apart m p _ q h]
    exact write32_comm m p q _ _ h

theorem patch32_neg32 (d : Nat) (m : Mem) (p : Nat) :
    patch32 (neg32 d) (patch32 d m p) p = m := by
  rw [patch32_patch32_same]
  have hlt := read32_lt m p
  have h : (read32 m p + d + neg32 d) % 2 ^ 32 = read32 m p % 2 ^ 32 := by
    unfold neg32
    omega
  rw [write32_congr m p _ _ h, write32_read32]

/-! ## A sequence of patches -/

theorem foldl_patch32_byte_out (d : Nat) (ps : List Nat) (m : Mem) (x : Nat)
    (h : ∀ p ∈ ps, x < p ∨ p + 4 ≤ x) : ps.foldl (patch32 d) m x = m x := by
  induction ps generalizing m with
  | nil => rfl
  | cons p ps ih =>
    rw [List.foldl_cons, ih _ (fun q hq => h q (List.mem_cons_of_mem _ hq))]
    exact patch32_byte_out d m p x (h p (List.mem_cons_self _ _))

theorem foldl_patch32_read_out (d : Nat) (ps : List Nat) (m : Mem) (q : Nat)
    (h : ∀ p ∈ ps, Apart p q) : read32 (ps.foldl (patch32 d) m) q = read32 m q := by
  unfold read32
  rw [foldl_patch32_byte_out d ps m q (fun p hp => by have := h p hp; unfold Apart at this; omega),
    foldl_patch32_byte_out d ps m (q + 1)
      (fun p hp => by have := h p hp; unfold Apart at this; omega),
    foldl_patch32_byte_out d ps m (q + 2)
      (fun p hp => by have := h p hp; unfold Apart at this; omega),
    foldl_patch32_byte_out d ps m (q + 3)
      (fun p hp => by have := h p hp; unfold Apart at this; omega)]

theorem foldl_patch32_read_count (d : Nat) (ps : List Nat) (m : Mem) (q : Nat)
    (h : ∀ p ∈ ps, p = q ∨ Apart p q) :
    read32 (ps.foldl (patch32 d) m) q = (read32 m q + ps.count q * d) % 2 ^ 32 := by
  induction ps generalizing m with
  | nil =>
    have := read32_lt m q
    simp only [List.foldl_nil, List.count_nil, Nat.zero_mul, Nat.add_zero]
    omega
  | cons p ps ih =>
    rw [List.foldl_cons, ih _ (fun r hr => h r (List.mem_cons_of_mem _ hr))]
    rcases h p (List.mem_cons_self _ _) with hp | hp
    · subst hp
      rw [read32_patch32_same, List.count_cons_self, Nat.succ_mul]
      omega
    · have hne : p ≠ q := by unfold Apart at hp; omega
      rw [read32_patch32_apart d m p q hp, List.count_cons_of_ne hne.symm]

theorem foldl_patch32_read_in (d : Nat) (ps : List Nat) (m : Mem) (q : Nat)
    (hpw : ps.Pairwise Apart) (hq : q ∈ ps) :
    read32 (ps.foldl (patch32 d) m) q = (read32 m q + d) % 2 ^ 32 := by
  have hnd : ps.Nodup := hpw.imp (fun {a b} hab => by unfold Apart at hab; omega)
  have hc : ps.count q = 1 := List.count_eq_one_of_mem hnd hq
  have h : ∀ p ∈ ps, p = q ∨ Apart p q := by
    intro p hp
    by_cases hpq : p = q
    · exact Or.inl hpq
    · right
      have hsymm : Symmetric Apart := by
        intro x y hxy; unfold Apart at hxy ⊢; omega
      have h1 : ∀ a ∈ ps, ∀ b ∈ ps, a ≠ b → Apart a b :=
        fun a ha b hb hab => List.Pairwise.forall hsymm hpw ha hb hab
      exact h1 p hp q hq hpq
  rw [foldl_patch32_read_count d ps m q h, hc, Nat.one_mul]

theorem patch32_foldl_comm (a b : Nat) (ps : List Nat) (m : Mem) (p : Nat)
    (h : ∀ q ∈ ps, p = q ∨ Apart p q) :
    patch32 a (ps.foldl (patch32 b) m) p = ps.foldl (patch32 b) (patch32 a m p) := by
  induction ps generalizing m with
  | nil => rfl
  | cons q ps ih =>
    rw [List.foldl_cons, List.foldl_cons, ih _ (fun r hr => h r (List.mem_cons_of_mem _ hr)),
      patch32_comm a b m p q (h q (List.mem_cons_self _ _))]

theorem foldl_patch32_round_trip (d : Nat) (ps : List Nat) (m : Mem)
    (h : ∀ p ∈ ps, ∀ q ∈ ps, p = q ∨ Apart p q) :
    ps.foldl (patch32 (neg32 d)) (ps.foldl (patch32 d) m) = m := by
  induction ps generalizing m with
  | nil => rfl
  | cons p ps ih =>
    rw [List.foldl_cons, List.foldl_cons,
      patch32_foldl_comm (neg32 d) d ps _ p
        (fun q hq => h p (List.mem_cons_self _ _) q (List.mem_cons_of_mem _ hq)),
      patch32_neg32]
    exact ih m (fun a ha b hb => h a (List.mem_cons_of_mem _ ha) b (List.mem_cons_of_mem _ hb))

/-! ## The loop of `updateRelocs` -/

theorem relocSlots_nil (reloc rend : Nat) (h : rend ≤ reloc) : relocSlots reloc rend = [] := by
  unfold relocSlots
  have h0 : (rend - reloc + 3) / 4 = 0 := by omega
  rw [h0]
  rfl

theorem relocSlots_cons (reloc rend : Nat) (h : reloc < rend) :
    relocSlots reloc rend = reloc :: relocSlots (reloc + 4) rend := by
  unfold relocSlots
  have h1 : (rend - reloc + 3) / 4 = (rend - (reloc + 4) + 3) / 4 + 1 := by omega
  rw [h1, List.range_succ_eq_map, List.map_cons, List.map_map]
  refine congrArg₂ _ (by omega) ?_
  apply List.map_congr_left
  intro i _
  simp only [Function.comp]
  omega

/-- Any bound of at least `rend - reloc` iterations lets the loop of `updateRelocs` run to
its end: it runs the statement of the loop at every slot of `[reloc, rend)`, in increasing
order, each time on the memory the statements before it have left. -/
theorem updateRelocs_fuel (dest rend delta : Nat) (fuel reloc : Nat) (m : Mem)
    (h : rend - reloc ≤ fuel) :
    updateRelocsLoop dest rend delta fuel reloc m =
      (relocSlots reloc rend).foldl (fun mm t => relocStep dest delta t mm) m := by
  induction fuel generalizing reloc m with
  | zero =>
    rw [relocSlots_nil reloc rend (by omega)]
    rfl
  | succ fuel ih =>
    unfold updateRelocsLoop
    by_cases hlt : reloc < rend
    · rw [if_pos hlt, ih (reloc + 4) _ (by omega), relocSlots_cons reloc rend hlt]
      rfl
    · rw [if_neg hlt, relocSlots_nil reloc rend (by omega)]
      rfl

/-- When the slots hold in `m` what they hold in `m0` and no word they name shares a byte
with a slot, the statements of the loop are the patches of the words that `m0` names. -/
theorem foldl_relocStep (dest delta : Nat) (m0 : Mem) (ts : List Nat) (m : Mem)
    (hsame : ∀ t ∈ ts, read32 m t = read32 m0 t)
    (hsep : ∀ t ∈ ts, ∀ u ∈ ts, Apart (ptr_add dest (read32 m0 t)) u) :
    ts.foldl (fun mm t => relocStep dest delta t mm) m =
      (ts.map (fun t => ptr_add dest (read32 m0 t))).foldl (patch32 delta) m := by
  induction ts generalizing m with
  | nil => rfl
  | cons t ts ih =>
    rw [List.foldl_cons, List.map_cons, List.foldl_cons, relocStep_eq,
      hsame t (List.mem_cons_self _ _)]
    apply ih
    · intro u hu
      rw [read32_patch32_apart _ _ _ _
        (hsep t (List.mem_cons_self _ _) u (List.mem_cons_of_mem _ hu))]
      exact hsame u (List.mem_cons_of_mem _ hu)
    · intro u hu v hv
      exact hsep u (List.mem_cons_of_mem _ hu) v (List.mem_cons_of_mem _ hv)

theorem relocAddrs_eq_map (m : Mem) (dest rstart rend : Nat) :
    relocAddrs m dest rstart rend
      = (relocSlots rstart rend).map (fun t => ptr_add dest (read32 m t)) := by
  unfold relocAddrs relocEntries
  rw [List.map_map]
  rfl

/-- A pass of `updateRelocs` on a memory `m` whose table is the one `m0` holds, when no
word the table names shares a byte with a slot of the table: the pass patches the words
that `m0` names, in order. -/
theorem updateRelocs_stable (m0 m : Mem) (dest rstart rend delta : Nat)
    (hsame : ∀ t ∈ relocSlots rstart rend, read32 m t = read32 m0 t)
    (hsep : ∀ p ∈ relocAddrs m0 dest rstart rend, ∀ t ∈ relocSlots rstart rend, Apart p t) :
    updateRelocs m dest rstart rend delta =
      (relocAddrs m0 dest rstart rend).foldl (patch32 delta) m := by
  unfold updateRelocs
  rw [updateRelocs_fuel dest rend delta (rend - rstart) rstart m (Nat.le_refl _),
    relocAddrs_eq_map]
  apply foldl_relocStep dest delta m0 _ m hsame
  intro t ht u hu
  apply hsep _ _ u hu
  rw [relocAddrs_eq_map]
  exact List.mem_map.mpr ⟨t, ht, rfl⟩

/-! ## `memcpy` and 32-bit arithmetic -/

theorem memcpy_in (m : Mem) (d s n i : Nat) (h : i < n) :
    memcpy m d s n (d + i) = m (s + i) := by
  have h1 : d ≤ d + i ∧ d + i < d + n := by omega
  simp [memcpy, h1]

theorem memcpy_out (m : Mem) (d s n x : Nat) (h : x < d ∨ d + n ≤ x) :
    memcpy m d s n x = m x := by
  have h1 : ¬ (d ≤ x ∧ x < d + n) := by omega
  simp [memcpy, h1]

theorem read32_memcpy (m : Mem) (d s n a : Nat) (h : a + 4 ≤ n) :
    read32 (memcpy m d s n) (d + a) = read32 m (s + a) := by
  unfold read32
  have e1 := memcpy_in m d s n a (by omega)
  have e2 := memcpy_in m d s n (a + 1) (by omega)
  have e3 := memcpy_in m d s n (a + 2) (by omega)
  have e4 := memcpy_in m d s n (a + 3) (by omega)
  simp only [← Nat.add_assoc] at e1 e2 e3 e4
  rw [e1, e2, e3, e4]

theorem read32_congr (m m' : Mem) (a : Nat)
    (h : ∀ x, a ≤ x → x < a + 4 → m' x = m x) : read32 m' a = read32 m a := by
  unfold read32
  rw [h a (by omega) (by omega), h (a + 1) (by omega) (by omega),
    h (a + 2) (by omega) (by omega), h (a + 3) (by omega) (by omega)]

theorem read32_memcpy_out (m : Mem) (d s n t : Nat) (h : Outside t d n) :
    read32 (memcpy m d s n) t = read32 m t := by
  unfold Outside at h
  exact read32_congr m _ t (fun x hx1 hx2 => memcpy_out m d s n x (by omega))

theorem ptr_add_eq (p off : Nat) (h : p + off < 2 ^ 32) : ptr_add p off = p + off :=
  Nat.mod_eq_of_lt h

theorem add_neg32 (x d : Nat) : (x + neg32 d) % 2 ^ 32 = sub32 x d := by
  unfold neg32 sub32
  omega

theorem initsize_eq (s : Symbols)
    (h : s.code32init_start ≤ s.code32init_end ∧ s.code32init_end < 2 ^ 32) :
    initsize s = s.code32init_end - s.code32init_start := by
  unfold initsize sub32
  omega

theorem mem_relocAddrs (m : Mem) (dest rstart rend p : Nat) :
    p ∈ relocAddrs m dest rstart rend ↔
      ∃ e ∈ relocEntries m rstart rend, ptr_add dest e = p := by
  unfold relocAddrs
  exact List.mem_map

/-- The addresses patched in a block of the address space that holds every word of the
table: no pointer addition wraps. -/
theorem relocAddrs_block (m : Mem) (dest rstart rend n : Nat)
    (hfit : dest + n ≤ 2 ^ 32) (hb : ∀ e ∈ relocEntries m rstart rend, e + 4 ≤ n) :
    relocAddrs m dest rstart rend
      = (relocEntries m rstart rend).map (fun e => dest + e) := by
  unfold relocAddrs
  apply List.map_congr_left
  intro e he
  exact ptr_add_eq dest e (by have := hb e he; omega)

theorem pairwise_apart_shift (d : Nat) (l : List Nat) (h : l.Pairwise Apart) :
    (l.map (fun e => d + e)).Pairwise Apart :=
  List.Pairwise.map _ (fun a b hab => by unfold Apart at hab ⊢; omega) h

/-! ## The stages of `reloc_preinit` -/

theorem reloc_preinit_mem (s : Symbols) (memalign_tmp : Nat → Nat → Nat)
    (f arg : Nat) (m : Mem) (hD : codedest s memalign_tmp ≠ 0) :
    (reloc_preinit true s memalign_tmp f arg m).mem =
      updateRelocs
        (updateRelocs
          (updateRelocs
            (memcpy
              (updateRelocs m s.code32flat_start s._reloc_datalow_start
                s._reloc_datalow_end (datalowdelta s))
              (codedest s memalign_tmp) s.code32init_start (initsize s))
            (codedest s memalign_tmp) s._reloc_abs_start s._reloc_abs_end
            (initdelta s memalign_tmp))
          (codedest s memalign_tmp) s._reloc_rel_start s._reloc_rel_end
          (neg32 (initdelta s memalign_tmp)))
        s.code32flat_start s._reloc_init_start s._reloc_init_end (initdelta s memalign_tmp) := by
  simp [reloc_preinit, hD]

/-- The memories of a run of `reloc_preinit` whose tables are left alone: the low-data
patch, the copy, and the absolute, relative and cross patches each act on the words that
the tables of the initial memory name. -/
theorem reloc_stages (s : Symbols) (memalign_tmp : Nat → Nat → Nat) (f arg : Nat) (m : Mem)
    (D : Nat)
    (hinit : s.code32init_start ≤ s.code32init_end ∧ s.code32init_end < 2 ^ 32)
    (halloc : memalign_tmp s._reloc_min_align (s.code32init_end - s.code32init_start) = D)
    (hD : D ≠ 0)
    (hfit : D + (s.code32init_end - s.code32init_start) ≤ 2 ^ 32)
    (hb : ∀ e ∈ absTable s m ++ relTable s m,
      e + 4 ≤ s.code32init_end - s.code32init_start)
    (hkept : TablesKept s m D (s.code32init_end - s.code32init_start)) :
    ∃ m1 m2 m3 m4 m5 : Mem,
      (reloc_preinit true s memalign_tmp f arg m).mems
        = [m, m, m1, m1, m2, m3, m4, m5, m5, m5] ∧
      (reloc_preinit true s memalign_tmp f arg m).mem = m5 ∧
      m1 = ((datalowTable s m).map (ptr_add s.code32flat_start)).foldl
        (patch32 (datalowdelta s)) m ∧
      m2 = memcpy m1 D s.code32init_start (s.code32init_end - s.code32init_start) ∧
      m3 = ((absTable s m).map (fun e => D + e)).foldl
        (patch32 (sub32 D s.code32init_start)) m2 ∧
      m4 = ((relTable s m).map (fun e => D + e)).foldl
        (patch32 (neg32 (sub32 D s.code32init_start))) m3 ∧
      m5 = ((crossTable s m).map (ptr_add s.code32flat_start)).foldl
        (patch32 (sub32 D s.code32init_start)) m4 := by
  have hsz := initsize_eq s hinit
  have hcd : codedest s memalign_tmp = D := by
    unfold codedest
    rw [hsz, halloc]
  have hdl : initdelta s memalign_tmp = sub32 D s.code32init_start := by
    unfold initdelta
    rw [hcd]
  have hbA : ∀ e ∈ relocEntries m s._reloc_abs_start s._reloc_abs_end,
      e + 4 ≤ s.code32init_end - s.code32init_start :=
    fun e he => hb e (List.mem_append_left _ he)
  have hbR : ∀ e ∈ relocEntries m s._reloc_rel_start s._reloc_rel_end,
      e + 4 ≤ s.code32init_end - s.code32init_start :=
    fun e he => hb e (List.mem_append_right _ he)
  -- the slots of each table are slots of the four tables
  have hsA : ∀ t ∈ relocSlots s._reloc_abs_start s._reloc_abs_end, t ∈ tableSlots s := by
    intro t ht; unfold tableSlots; simp [ht]
  have hsR : ∀ t ∈ relocSlots s._reloc_rel_start s._reloc_rel_end, t ∈ tableSlots s := by
    intro t ht; unfold tableSlots; simp [ht]
  have hsC : ∀ t ∈ relocSlots s._reloc_init_start s._reloc_init_end, t ∈ tableSlots s := by
    intro t ht; unfold tableSlots; simp [ht]
  have hsL : ∀ t ∈ relocSlots s._reloc_datalow_start s._reloc_datalow_end,
      t ∈ tableSlots s := by
    intro t ht; unfold tableSlots; simp [ht]
  -- words inside the block share no byte with a slot
  have hblock : ∀ (l : List Nat), (∀ e ∈ l, e + 4 ≤ s.code32init_end - s.code32init_start) →
      ∀ p ∈ l.map (fun e => D + e), ∀ t ∈ tableSlots s, Apart p t := by
    intro l hl p hp t ht
    obtain ⟨e, he, rfl⟩ := List.mem_map.mp hp
    have h1 := (hkept t ht).1
    have h2 := hl e he
    unfold Outside at h1
    unfold Apart
    omega
  have hlow : ∀ p ∈ relocAddrs m s.code32flat_start s._reloc_datalow_start
      s._reloc_datalow_end, ∀ t ∈ tableSlots s, Apart p t := by
    intro p hp t ht
    obtain ⟨l, hl, rfl⟩ := (mem_relocAddrs _ _ _ _ _).mp hp
    exact (hkept t ht).2.1 l hl
  have hcross : ∀ p ∈ relocAddrs m s.code32flat_start s._reloc_init_start
      s._reloc_init_end, ∀ t ∈ tableSlots s, Apart p t := by
    intro p hp t ht
    obtain ⟨c, hc, rfl⟩ := (mem_relocAddrs _ _ _ _ _).mp hp
    exact (hkept t ht).2.2 c hc
  -- the low-data patch
  have e1 : updateRelocs m s.code32flat_start s._reloc_datalow_start s._reloc_datalow_end
      (datalowdelta s)
      = (relocAddrs m s.code32flat_start s._reloc_datalow_start
          s._reloc_datalow_end).foldl (patch32 (datalowdelta s)) m :=
    updateRelocs_stable m m _ _ _ _ (fun _ _ => rfl) (fun p hp t ht => hlow p hp t (hsL t ht))
  have k1 : ∀ t ∈ tableSlots s,
      read32 ((relocAddrs m s.code32flat_start s._reloc_datalow_start
        s._reloc_datalow_end).foldl (patch32 (datalowdelta s)) m) t = read32 m t :=
    fun t ht => foldl_patch32_read_out _ _ _ _ (fun p hp => hlow p hp t ht)
  -- the copy
  have k2 : ∀ (mm : Mem), ∀ t ∈ tableSlots s,
      read32 (memcpy mm D s.code32init_start (s.code32init_end - s.code32init_start)) t
        = read32 mm t :=
    fun mm t ht => read32_memcpy_out mm _ _ _ t (hkept t ht).1
  -- the absolute and relative patches
  have hA := relocAddrs_block m D s._reloc_abs_start s._reloc_abs_end _ hfit hbA
  have hR := relocAddrs_block m D s._reloc_rel_start s._reloc_rel_end _ hfit hbR
  have e3 : ∀ (mm : Mem), (∀ t ∈ tableSlots s, read32 mm t = read32 m t) →
      updateRelocs mm D s._reloc_abs_start s._reloc_abs_end (sub32 D s.code32init_start)
        = ((absTable s m).map (fun e => D + e)).foldl
            (patch32 (sub32 D s.code32init_start)) mm := by
    intro mm hmm
    rw [updateRelocs_stable m mm _ _ _ _ (fun t ht => hmm t (hsA t ht))
      (fun p hp t ht => hblock _ hbA p (hA ▸ hp) t (hsA t ht)), hA]
    rfl
  have e4 : ∀ (mm : Mem), (∀ t ∈ tableSlots s, read32 mm t = read32 m t) →
      updateRelocs mm D s._reloc_rel_start s._reloc_rel_end
          (neg32 (sub32 D s.code32init_start))
        = ((relTable s m).map (fun e => D + e)).foldl
            (patch32 (neg32 (sub32 D s.code32init_start))) mm := by
    intro mm hmm
    rw [updateRelocs_stable m mm _ _ _ _ (fun t ht => hmm t (hsR t ht))
      (fun p hp t ht => hblock _ hbR p (hR ▸ hp) t (hsR t ht)), hR]
    rfl
  have k3 : ∀ (l : List Nat) (d : Nat) (mm : Mem),
      (∀ e ∈ l, e + 4 ≤ s.code32init_end - s.code32init_start) →
      ∀ t ∈ tableSlots s, read32 ((l.map (fun e => D + e)).foldl (patch32 d) mm) t
        = read32 mm t :=
    fun l d mm hl t ht => foldl_patch32_read_out _ _ _ _ (fun p hp => hblock l hl p hp t ht)
  have e5 : ∀ (mm : Mem), (∀ t ∈ tableSlots s, read32 mm t = read32 m t) →
      updateRelocs mm s.code32flat_start s._reloc_init_start s._reloc_init_end
          (sub32 D s.code32init_start)
        = ((crossTable s m).map (ptr_add s.code32flat_start)).foldl
            (patch32 (sub32 D s.code32init_start)) mm := by
    intro mm hmm
    rw [updateRelocs_stable m mm _ _ _ _ (fun t ht => hmm t (hsC t ht))
      (fun p hp t ht => hcross p hp t (hsC t ht))]
    rfl
  refine ⟨_, _, _, _, _, ?_, ?_, rfl, rfl, rfl, rfl, rfl⟩
  · have hD' : codedest s memalign_tmp ≠ 0 := by rw [hcd]; exact hD
    simp only [reloc_preinit, Bool.not_true, Bool.false_eq_true, if_false, if_neg hD', hcd,
      hdl, hsz, if_neg hD]
    rw [e1]
    have h2 : ∀ t ∈ tableSlots s, read32 (memcpy ((relocAddrs m s.code32flat_start
        s._reloc_datalow_start s._reloc_datalow_end).foldl (patch32 (datalowdelta s)) m) D
        s.code32init_start (s.code32init_end - s.code32init_start)) t = read32 m t :=
      fun t ht => (k2 _ t ht).trans (k1 t ht)
    rw [e3 _ h2]
    have h3 := fun t ht => (k3 (absTable s m) (sub32 D s.code32init_start) _ hbA t ht).trans
      (h2 t ht)
    rw [e4 _ h3]
    have h4 := fun t ht => (k3 (relTable s m) (neg32 (sub32 D s.code32init_start)) _ hbR
      t ht).trans (h3 t ht)
    rw [e5 _ h4]
    rfl
  · have hD' : codedest s memalign_tmp ≠ 0 := by rw [hcd]; exact hD
    simp only [reloc_preinit, Bool.not_true, Bool.false_eq_true, if_false, if_neg hD', hcd,
      hdl, hsz, if_neg hD]
    rw [e1]
    have h2 : ∀ t ∈ tableSlots s, read32 (memcpy ((relocAddrs m s.code32flat_start
        s._reloc_datalow_start s._reloc_datalow_end).foldl (patch32 (datalowdelta s)) m) D
        s.code32init_start (s.code32init_end - s.code32init_start)) t = read32 m t :=
      fun t ht => (k2 _ t ht).trans (k1 t ht)
    rw [e3 _ h2]
    have h3 := fun t ht => (k3 (absTable s m) (sub32 D s.code32init_start) _ hbA t ht).trans
      (h2 t ht)
    rw [e4 _ h3]
    have h4 := fun t ht => (k3 (relTable s m) (neg32 (sub32 D s.code32init_start)) _ hbR
      t ht).trans (h3 t ht)
    rw [e5 _ h4]
    rfl

/-! ## The sequence of phases -/

/-- In a list without duplicates a value has one position. -/
theorem getElem?_unique {t : List Phase} (hn : t.Nodup) {p : Phase} {i j : Nat}
    (hi : t[i]? = some p) (hj : t[j]? = some p) : i = j := by
  obtain ⟨hil, hie⟩ := List.getElem?_eq_some.mp hi
  obtain ⟨hjl, hje⟩ := List.getElem?_eq_some.mp hj
  exact (List.Nodup.getElem_inj_iff hn).mp (hie.trans hje.symm)

/-- With both threading flags set no phase of `maininit` is repeated. -/
theorem maininit_threaded_nodup (x y : Bool) : (maininit ⟨true, true, x, y⟩).Nodup := by
  cases x <;> cases y <;> decide

/-- C6 (counterexample): with `CONFIG_THREADS` and `CONFIG_THREAD_OPTIONROMS` both set,
`maininit` calls `wait_threads` once only, after `optionrom_setup`: there is no barrier
after device hardware setup and before option ROM execution. -/
theorem no_barrier_before_optionrom_threaded :
    ¬ BarrierBetween (maininit ⟨true, true, false, false⟩)
        Phase.device_hardware_setup Phase.optionrom_setup := by
  rintro ⟨i, k, j, hik, hkj, -, hk, hj⟩
  have hn := maininit_threaded_nodup false false
  have h1 : k = 40 := getElem?_unique hn hk (by decide)
  have h2 : j = 38 := getElem?_unique hn hj (by decide)
  omega

/-- C6 (amended): in every build configuration `maininit` calls `wait_threads` after the
interactive boot menu and before `prepareboot`; when `CONFIG_THREADS` and
`CONFIG_THREAD_OPTIONROMS` are not both set it also calls `wait_threads` after device
hardware setup (after `device_hardware_setup` is called and after its last call,
`megasas_setup`) and before `optionrom_setup`. -/
theorem wait_threads_barriers (c : BuildConfig) :
    BarrierBetween (maininit c) Phase.interactive_bootmenu Phase.prepareboot ∧
    ((c.CONFIG_THREADS && c.CONFIG_THREAD_OPTIONROMS) = false →
      BarrierBetween (maininit c) Phase.device_hardware_setup Phase.optionrom_setup ∧
      BarrierBetween (maininit c) Phase.megasas_setup Phase.optionrom_setup) := by
  rcases c with ⟨a, b, x, y⟩
  have sync : ∀ a b x y, (a && b) = false →
      BarrierBetween (maininit ⟨a, b, x, y⟩) Phase.interactive_bootmenu Phase.prepareboot ∧
      BarrierBetween (maininit ⟨a, b, x, y⟩) Phase.device_hardware_setup
        Phase.optionrom_setup ∧
      BarrierBetween (maininit ⟨a, b, x, y⟩) Phase.megasas_setup Phase.optionrom_setup := by
    intro a b x y h
    refine ⟨⟨40, 41, 42, ?_⟩, ⟨23, 38, 39, ?_⟩, ⟨37, 38, 39, ?_⟩⟩ <;>
      cases a <;> cases b <;> cases x <;> cases y <;> first | decide | cases h
  by_cases h : (a && b) = false
  · exact ⟨(sync a b x y h).1, fun _ => (sync a b x y h).2⟩
  · have ha : a = true := by cases a <;> simp_all
    have hb : b = true := by cases b <;> simp_all
    subst ha hb
    refine ⟨⟨39, 40, 41, ?_⟩, fun h2 => absurd h2 h⟩
    cases x <;> cases y <;> decide

theorem wait_threads_barriers_witness :
    BarrierBetween (maininit ⟨true, false, false, false⟩)
      Phase.device_hardware_setup Phase.optionrom_setup :=
  ((wait_threads_barriers ⟨true, false, false, false⟩).2 (by decide)).1

/-! ## The interrupt vector table -/

theorem foldl_SET_IVT (v : SegOff) (n lo : Nat) (t : Ivt) (j : Nat) :
    (List.range' lo n).foldl (fun s i => SET_IVT s i v) t j
      = if lo ≤ j ∧ j < lo + n then v else t j := by
  induction n generalizing lo t with
  | zero =>
    have : ¬ (lo ≤ j ∧ j < lo) := by omega
    simp [this]
  | succ n ih =>
    rw [List.range'_succ, List.foldl_cons, ih]
    unfold SET_IVT
    by_cases h1 : lo + 1 ≤ j ∧ j < lo + 1 + n
    · have h2 : lo ≤ j ∧ j < lo + (n + 1) := by omega
      simp [h1, h2]
    · by_cases h3 : j = lo
      · subst h3; simp
      · have h2 : ¬ (lo ≤ j ∧ j < lo + (n + 1)) := by omega
        simp [h1, h2, h3]

theorem forLoop_SET_IVT (v : SegOff) (lo hi : Nat) (t : Ivt) (j : Nat) :
    forLoop lo hi (fun i s => SET_IVT s i v) t j
      = if lo ≤ j ∧ j < hi then v else t j := by
  unfold forLoop
  rw [foldl_SET_IVT]
  by_cases h : lo ≤ j ∧ j < hi
  · have h2 : lo ≤ j ∧ j < lo + (hi - lo) := by omega
    simp [h, h2]
  · have h2 : ¬ (lo ≤ j ∧ j < lo + (hi - lo)) := by omega
    simp [h, h2]

/-- The vector table after `ivt_init`, entry by entry. -/
theorem ivt_init_apply (FUNC16 : Entry → SegOff) (ivt : Ivt) (i : Nat) (hi : i < 256) :
    ivt_init FUNC16 ivt i =
      if zeroedVector i then SEGOFF 0 0
      else match specificHandler i with
        | some e => FUNC16 e
        | none =>
          if 0x08 ≤ i ∧ i ≤ 0x0f then FUNC16 Entry.entry_hwpic1
          else if 0x70 ≤ i ∧ i ≤ 0x77 then FUNC16 Entry.entry_hwpic2
          else FUNC16 Entry.entry_iret_official := by
  unfold ivt_init
  simp only [forLoop_SET_IVT, SET_IVT]
  interval_cases i <;> simp [zeroedVector, specificHandler]

theorem sampleFUNC16_ne_zero (e : Entry) : SEGOFF 0 0 ≠ sampleFUNC16 e := by
  cases e <;> decide

/-- C7 (counterexample): with every handler in segment `0xf000` and a table that holds
no zero before the call, vector `0x60` is outside the specific-handler map and outside
both hardware ranges, yet after `ivt_init` it points to no handler: it is zero, as are
eight vectors in all, not one. -/
theorem ivt_init_vector_60_zeroed :
    specificHandler 0x60 = none ∧
    (∀ e, ivt_init sampleFUNC16 sampleIvt 0x60 ≠ sampleFUNC16 e) ∧
    ((List.range 256).filter
      (fun i => decide (ivt_init sampleFUNC16 sampleIvt i = SEGOFF 0 0))).length = 8 := by
  refine ⟨by decide, ?_, ?_⟩
  · intro e
    rw [ivt_init_apply _ _ 0x60 (by decide)]
    exact sampleFUNC16_ne_zero e
  · have h : (List.range 256).filter
        (fun i => decide (ivt_init sampleFUNC16 sampleIvt i = SEGOFF 0 0))
        = (List.range 256).filter zeroedVector := by
      apply List.filter_congr
      intro i hi
      rw [ivt_init_apply _ _ i (List.mem_range.mp hi)]
      cases hz : zeroedVector i
      · have hne : ∀ e, sampleFUNC16 e ≠ SEGOFF 0 0 := fun e => (sampleFUNC16_ne_zero e).symm
        cases hs : specificHandler i <;> simp [hne]
        split_ifs <;> simp [hne]
      · simp
    rw [h]
    decide

/-- C7 (amended): after `ivt_init`, for every initial table content and every values of
the handlers, each of the 256 vectors is either zero or a handler: the eight vectors
`0x60`-`0x66` and `0x79` are zero; any other vector of the specific-handler map (`0x02`,
`0x10`-`0x1a`, `0x40`) holds its handler; any other vector outside the map holds
`entry_hwpic1` for `0x08`-`0x0f`, `entry_hwpic2` for `0x70`-`0x77` and the default
`entry_iret_official` otherwise. -/
theorem ivt_init_complete (FUNC16 : Entry → SegOff) (ivt : Ivt) (i : Nat) (hi : i < 256) :
    ((zeroedVector i = true ∧ ivt_init FUNC16 ivt i = SEGOFF 0 0) ∨
     (zeroedVector i = false ∧
      (∃ e, ivt_init FUNC16 ivt i = FUNC16 e) ∧
      (∀ e, specificHandler i = some e → ivt_init FUNC16 ivt i = FUNC16 e) ∧
      (specificHandler i = none →
        ivt_init FUNC16 ivt i =
          if 0x08 ≤ i ∧ i ≤ 0x0f then FUNC16 Entry.entry_hwpic1
          else if 0x70 ≤ i ∧ i ≤ 0x77 then FUNC16 Entry.entry_hwpic2
          else FUNC16 Entry.entry_iret_official))) ∧
    (List.range 256).filter zeroedVector = [0x60, 0x61, 0x62, 0x63, 0x64, 0x65, 0x66, 0x79] := by
  refine ⟨?_, by decide⟩
  rw [ivt_init_apply FUNC16 ivt i hi]
  cases hz : zeroedVector i
  · right
    refine ⟨rfl, ?_⟩
    cases hs : specificHandler i with
    | some e => simp
    | none =>
      refine ⟨?_, (fun e he => by cases he), (fun _ => by simp)⟩
      simp only [Bool.false_eq_true, if_false]
      split_ifs
      · exact ⟨_, rfl⟩
      · exact ⟨_, rfl⟩
      · exact ⟨_, rfl⟩
  · left
    simp

theorem ivt_init_complete_witness :
    (0x13 < 256) ∧
    ivt_init sampleFUNC16 sampleIvt 0x13 = sampleFUNC16 Entry.entry_13_official :=
  ⟨by decide,
    by
      rcases (ivt_init_complete sampleFUNC16 sampleIvt 0x13 (by decide)).1 with h | h
      · exact absurd h.1 (by decide)
      · exact h.2.2.1 _ (by decide)⟩

/-! ## The firmware checksum -/

theorem byteSum_eq_except_out (m : Mem) (a k n : Nat) (h : k < a ∨ a + n ≤ k) :
    byteSum m a n = byteSumExcept m a k n := by
  induction n with
  | zero => rfl
  | succ n ih =>
    have h1 : a + n ≠ k := by omega
    simp only [byteSum, byteSumExcept, if_neg h1]
    rw [ih (by omega)]

theorem byteSum_eq_except_in (m : Mem) (a k n : Nat) (h : a ≤ k ∧ k < a + n) :
    byteSum m a n = byteSumExcept m a k n + (m k).val := by
  induction n with
  | zero => omega
  | succ n ih =>
    by_cases h1 : a + n = k
    · simp only [byteSum, byteSumExcept, if_pos h1]
      rw [byteSum_eq_except_out m a k n (by omega), h1]
      omega
    · simp only [byteSum, byteSumExcept, if_neg h1]
      rw [ih (by omega)]
      omega

theorem byteSumExcept_write8 (m : Mem) (a k v n : Nat) :
    byteSumExcept (write8 m k v) a k n = byteSumExcept m a k n := by
  induction n with
  | zero => rfl
  | succ n ih =>
    by_cases h1 : a + n = k
    · simp only [byteSumExcept, if_pos h1, ih]
    · simp only [byteSumExcept, if_neg h1, ih, write8]

/-- C4: for every image content and every prior value of the correction byte, if
`BiosChecksum` is a byte of the image `[BUILD_BIOS_ADDR, BUILD_BIOS_ADDR + BUILD_BIOS_SIZE)`
and `checksum` is the byte sum modulo 256, then after `prepareboot` the bytes of the image
sum to 0 modulo 256, the correction byte is 0 minus the sum of the other image bytes
modulo 256, and the update changed no other byte. -/
theorem prepareboot_checksum (p : PrepareBoot) (BUILD_BIOS_ADDR BUILD_BIOS_SIZE : Nat)
    (BiosChecksum : Nat) (m : Mem)
    (hsum : ∀ m a n, p.checksum m a n = byteSum m a n % 256)
    (hin : BUILD_BIOS_ADDR ≤ BiosChecksum ∧ BiosChecksum < BUILD_BIOS_ADDR + BUILD_BIOS_SIZE) :
    byteSum (prepareboot p BUILD_BIOS_ADDR BUILD_BIOS_SIZE BiosChecksum m)
        BUILD_BIOS_ADDR BUILD_BIOS_SIZE % 256 = 0 ∧
    read8 (prepareboot p BUILD_BIOS_ADDR BUILD_BIOS_SIZE BiosChecksum m) BiosChecksum =
      (256 - byteSumExcept (prepareboot p BUILD_BIOS_ADDR BUILD_BIOS_SIZE BiosChecksum m)
        BUILD_BIOS_ADDR BiosChecksum BUILD_BIOS_SIZE % 256) % 256 ∧
    (∀ x, x ≠ BiosChecksum →
      prepareboot p BUILD_BIOS_ADDR BUILD_BIOS_SIZE BiosChecksum m x = beforeChecksum p m x) := by
  have hdef : prepareboot p BUILD_BIOS_ADDR BUILD_BIOS_SIZE BiosChecksum m =
      write8 (beforeChecksum p m) BiosChecksum
        (sub8 (read8 (beforeChecksum p m) BiosChecksum)
          (p.checksum (beforeChecksum p m) BUILD_BIOS_ADDR BUILD_BIOS_SIZE)) := rfl
  rw [hdef, hsum]
  generalize beforeChecksum p m = M
  have hc := (M BiosChecksum).isLt
  have hs := byteSum_eq_except_in M BUILD_BIOS_ADDR BiosChecksum BUILD_BIOS_SIZE hin
  have hnew : (write8 M BiosChecksum (sub8 (read8 M BiosChecksum)
      (byteSum M BUILD_BIOS_ADDR BUILD_BIOS_SIZE % 256)) BiosChecksum).val =
      sub8 (read8 M BiosChecksum) (byteSum M BUILD_BIOS_ADDR BUILD_BIOS_SIZE % 256) % 256 := by
    simp [write8, u8_val]
  refine ⟨?_, ?_, ?_⟩
  · rw [byteSum_eq_except_in _ BUILD_BIOS_ADDR BiosChecksum BUILD_BIOS_SIZE hin,
      byteSumExcept_write8, hnew, hs]
    unfold sub8 read8
    omega
  · rw [byteSumExcept_write8]
    show (write8 M BiosChecksum _ BiosChecksum).val = _
    rw [hnew, hs]
    unfold sub8 read8
    omega
  · intro x hx
    simp [write8, hx]

theorem prepareboot_checksum_witness :
    (∀ m a n, samplePrepareBoot.checksum m a n = byteSum m a n % 256) ∧
    (0xf0000 ≤ 0xf0003 ∧ 0xf0003 < 0xf0000 + 4) ∧
    byteSum (prepareboot samplePrepareBoot 0xf0000 4 0xf0003 sampleImage) 0xf0000 4 % 256 = 0 :=
  ⟨fun _ _ _ => rfl, by decide,
    (prepareboot_checksum samplePrepareBoot 0xf0000 4 0xf0003 sampleImage
      (fun _ _ _ => rfl) (by decide)).1⟩

/-! ## The status block -/

theorem memset_in (m : Mem) (d c n x : Nat) (h : d ≤ x ∧ x < d + n) :
    memset m d c n x = u8 c := by
  simp [memset, h]

theorem memset_out (m : Mem) (d c n x : Nat) (h : x < d ∨ d + n ≤ x) :
    memset m d c n x = m x := by
  have h1 : ¬ (d ≤ x ∧ x < d + n) := by omega
  simp [memset, h1]

theorem write16_out (m : Mem) (a v x : Nat) (h : x < a ∨ a + 2 ≤ x) :
    write16 m a v x = m x := by
  have h0 : x ≠ a := by omega
  have h1 : x ≠ a + 1 := by omega
  simp [write16, h0, h1]

theorem read16_write16 (m : Mem) (a v : Nat) : read16 (write16 m a v) a = v % 65536 := by
  simp [read16, write16, u8_val]
  omega

theorem read16_congr (m m' : Mem) (a : Nat) (h0 : m' a = m a) (h1 : m' (a + 1) = m (a + 1)) :
    read16 m' a = read16 m a := by
  simp [read16, h0, h1]

theorem write8_out (m : Mem) (a v x : Nat) (h : x ≠ a) : write8 m a v x = m x := by
  simp [write8, h]

/-- C8: for every initial state, when the constants and layouts are well formed, after
`bda_init` the field `mem_size_kb` is `BUILD_LOWRAM_END/1024 - EBDA_SIZE_START`, the field
`ebda_seg` is `EBDA_SEGMENT_START`, every other byte of the status block is zero, the
extended block is zero except its `size` field which is `EBDA_SIZE_START`, and the memory
map is the former map followed by the one region with base `EBDA_SEGMENT_START * 16`,
length `EBDA_SIZE_START * 1024` and type `E820_RESERVED`. -/
theorem bda_init_fields (c : BdaConfig) (s : LowState) (hc : c.WellFormed) :
    read16 (bda_init c s).mem (MAKE_FLATPTR c.SEG_BDA c.off_mem_size_kb)
      = c.BUILD_LOWRAM_END / 1024 - c.EBDA_SIZE_START ∧
    read16 (bda_init c s).mem (MAKE_FLATPTR c.SEG_BDA c.off_ebda_seg)
      = c.EBDA_SEGMENT_START ∧
    (∀ x, x < c.sizeof_bda →
      (x < c.off_mem_size_kb ∨ c.off_mem_size_kb + 2 ≤ x) →
      (x < c.off_ebda_seg ∨ c.off_ebda_seg + 2 ≤ x) →
      read8 (bda_init c s).mem (MAKE_FLATPTR c.SEG_BDA x) = 0) ∧
    (∀ x, x < c.sizeof_ebda → x ≠ c.off_size →
      read8 (bda_init c s).mem (MAKE_FLATPTR c.EBDA_SEGMENT_START x) = 0) ∧
    read8 (bda_init c s).mem (MAKE_FLATPTR c.EBDA_SEGMENT_START c.off_size)
      = c.EBDA_SIZE_START ∧
    (bda_init c s).e820 = s.e820 ++
      [{ start := c.EBDA_SEGMENT_START * 16, size := c.EBDA_SIZE_START * 1024,
         type := c.E820_RESERVED }] := by
  obtain ⟨h1, h2, h3, h4, h5, h6, h7, h8, h9⟩ := hc
  have hseg : c.EBDA_SEGMENT_START % 65536 = c.EBDA_SEGMENT_START := Nat.mod_eq_of_lt h9
  -- the state after each statement
  obtain ⟨m1, hm1⟩ : ∃ m1, m1 = memset s.mem (MAKE_FLATPTR c.SEG_BDA 0) 0 c.sizeof_bda := ⟨_, rfl⟩
  obtain ⟨m2, hm2⟩ : ∃ m2, m2 = write16 m1 (MAKE_FLATPTR c.SEG_BDA 0 + c.off_mem_size_kb)
    (sub16 (c.BUILD_LOWRAM_END / 1024) c.EBDA_SIZE_START) := ⟨_, rfl⟩
  obtain ⟨m3, hm3⟩ : ∃ m3, m3 = write16 m2 (MAKE_FLATPTR c.SEG_BDA 0 + c.off_ebda_seg)
    c.EBDA_SEGMENT_START := ⟨_, rfl⟩
  have hebda : MAKE_FLATPTR (read16 m3 (MAKE_FLATPTR c.SEG_BDA 0 + c.off_ebda_seg)) 0
      = c.EBDA_SEGMENT_START * 16 := by
    rw [hm3, read16_write16, hseg]; rfl
  obtain ⟨m4, hm4⟩ : ∃ m4, m4 = memset m3 (c.EBDA_SEGMENT_START * 16) 0 c.sizeof_ebda := ⟨_, rfl⟩
  obtain ⟨m5, hm5⟩ : ∃ m5, m5 = write8 m4 (c.EBDA_SEGMENT_START * 16 + c.off_size)
    c.EBDA_SIZE_START := ⟨_, rfl⟩
  have hmem : (bda_init c s).mem = m5 := by
    simp only [bda_init, hseg]
    rw [← hm1, ← hm2, ← hm3, hebda, ← hm4, ← hm5]
  have hmap : (bda_init c s).e820 = add_e820 s.e820 (MAKE_FLATPTR c.EBDA_SEGMENT_START 0 % 2 ^ 32)
      (read8 m5 (MAKE_FLATPTR c.EBDA_SEGMENT_START c.off_size) * 1024) c.E820_RESERVED := by
    simp only [bda_init, hseg]
    rw [← hm1, ← hm2, ← hm3, hebda, ← hm4, ← hm5]
  -- bytes of the status block are not touched by the writes to the extended block
  have hbda : ∀ x, x < c.sizeof_bda → m5 (c.SEG_BDA * 16 + x) = m3 (c.SEG_BDA * 16 + x) := by
    intro x hx
    rw [hm5, write8_out _ _ _ _ (by omega), hm4, memset_out _ _ _ _ _ (by omega)]
  have hsize : read8 m5 (MAKE_FLATPTR c.EBDA_SEGMENT_START c.off_size) = c.EBDA_SIZE_START := by
    unfold read8 MAKE_FLATPTR
    rw [hm5]
    simp [write8, u8_val]
    omega
  have hbda1 : ∀ x, x + 1 < c.sizeof_bda →
      m5 (c.SEG_BDA * 16 + x + 1) = m3 (c.SEG_BDA * 16 + x + 1) := by
    intro x hx
    have := hbda (x + 1) hx
    rw [← Nat.add_assoc] at this
    exact this
  rw [hmem, hmap]
  unfold MAKE_FLATPTR at hsize hm1 hm2 hm3 ⊢
  simp only [Nat.add_zero] at hm1 hm2 hm3 ⊢
  refine ⟨?_, ?_, ?_, ?_, hsize, ?_⟩
  · rw [read16_congr m3 m5 _ (hbda _ (by omega)) (hbda1 _ (by omega))]
    rw [hm3, read16_congr m2 _ _ (write16_out _ _ _ _ (by omega)) (write16_out _ _ _ _ (by omega)),
      hm2, read16_write16]
    unfold sub16
    omega
  · rw [read16_congr m3 m5 _ (hbda _ (by omega)) (hbda1 _ (by omega))]
    rw [hm3, read16_write16, hseg]
  · intro x hx hx1 hx2
    unfold read8
    rw [hbda x hx, hm3, write16_out _ _ _ _ (by omega), hm2, write16_out _ _ _ _ (by omega),
      hm1, memset_in _ _ _ _ _ (by omega)]
    rfl
  · intro x hx hne
    unfold read8
    rw [hm5, write8_out _ _ _ _ (by omega), hm4, memset_in _ _ _ _ _ (by omega)]
    rfl
  · unfold add_e820
    have : c.EBDA_SEGMENT_START * 16 % 2 ^ 32 = c.EBDA_SEGMENT_START * 16 := by omega
    rw [this, hsize]

theorem bda_init_fields_witness :
    sampleBdaConfig.WellFormed ∧
    read16 (bda_init sampleBdaConfig ⟨fun _ => 0xff, [], 0⟩).mem 0x413 = 639 ∧
    read16 (bda_init sampleBdaConfig ⟨fun _ => 0xff, [], 0⟩).mem 0x40e = 0x9fc0 ∧
    (bda_init sampleBdaConfig ⟨fun _ => 0xff, [], 0⟩).e820 = [⟨0x9fc00, 1024, 2⟩] :=
  have h := bda_init_fields sampleBdaConfig ⟨fun _ => 0xff, [], 0⟩ (by decide)
  ⟨by decide, h.1, h.2.1, h.2.2.2.2.2⟩

/-! ## Relocation -/

/-- C1 (counterexample): in the sample layout with the low-data entry `0x1000`, the
destination block is disjoint from the init region and from every patched word of the
fixed region, the absolute and relative entries are in bounds, and the words the four
tables name overlap neither one another nor the originals of the absolute and relative
words; but the low-data word is the slot of the absolute table, so the absolute pass reads
the entry `0x10004` and the word at offset 4 of the copy is still `0x10008`, not
`0x10008 + 4096`. -/
theorem reloc_preinit_table_overwritten :
    (0x11000 + 0x40 ≤ sampleSymbols.code32init_start ∨
      sampleSymbols.code32init_end ≤ 0x11000) ∧
    (∀ e ∈ absTable sampleSymbols aliasMem ++ relTable sampleSymbols aliasMem,
      e + 4 ≤ 0x40) ∧
    (absTable sampleSymbols aliasMem ++ relTable sampleSymbols aliasMem).Pairwise Apart ∧
    (∀ c ∈ crossTable sampleSymbols aliasMem ++ datalowTable sampleSymbols aliasMem,
      Outside (ptr_add 0x8000 c) 0x11000 0x40) ∧
    ((crossTable sampleSymbols aliasMem ++ datalowTable sampleSymbols aliasMem).map
      (ptr_add 0x8000)).Pairwise Apart ∧
    (∀ c ∈ crossTable sampleSymbols aliasMem ++ datalowTable sampleSymbols aliasMem,
      ∀ e ∈ absTable sampleSymbols aliasMem ++ relTable sampleSymbols aliasMem,
        Apart (ptr_add 0x8000 c) (0x10000 + e) ∧ Apart (ptr_add 0x8000 c) (0x11000 + e)) ∧
    sampleAlloc sampleSymbols._reloc_min_align 0x40 = 0x11000 ∧
    4 ∈ absTable sampleSymbols aliasMem ∧
    read32 (reloc_preinit true sampleSymbols sampleAlloc 0x10030 0 aliasMem).mem
      (0x11000 + 4) = 0x10008 ∧
    add32 (read32 aliasMem (0x10000 + 4)) (sub32 0x11000 0x10000) = 0x10008 + 4096 := by
  decide

/-- C1 (amended): relocation round trip.  With relocation enabled, the init region
`[code32init_start, code32init_end)` in the address space, a destination block `D`
returned by the allocator that lies in the address space, is disjoint from the init region
and holds no word of the cross table, absolute and relative entries that are in bounds and
address pairwise non-overlapping words, cross entries that address pairwise
non-overlapping words, low-data entries whose words overlap neither a cross word nor the
original of an absolute or relative word, and tables whose storage is left alone (no slot
in the block, under a low-data word or under a cross word): after `reloc_preinit`, with
`delta = D - code32init_start` modulo `2^32`, every word at an absolute offset of the copy
is the original word plus `delta`, every word at a relative offset of the copy is the
original word minus `delta`, and every word at a cross offset of the fixed region is its
original value plus `delta`.  The tables are the ones the initial memory holds. -/
theorem reloc_preinit_round_trip (s : Symbols) (memalign_tmp : Nat → Nat → Nat)
    (f arg : Nat) (m : Mem) (D : Nat)
    (hinit : s.code32init_start ≤ s.code32init_end ∧ s.code32init_end < 2 ^ 32)
    (halloc : memalign_tmp s._reloc_min_align (s.code32init_end - s.code32init_start) = D)
    (hD : D ≠ 0)
    (hfit : D + (s.code32init_end - s.code32init_start) ≤ 2 ^ 32)
    (_hdisj : D + (s.code32init_end - s.code32init_start) ≤ s.code32init_start ∨
      s.code32init_end ≤ D)
    (hb : ∀ e ∈ absTable s m ++ relTable s m,
      e + 4 ≤ s.code32init_end - s.code32init_start)
    (hpw : (absTable s m ++ relTable s m).Pairwise Apart)
    (hC : ∀ c ∈ crossTable s m,
      Outside (ptr_add s.code32flat_start c) D (s.code32init_end - s.code32init_start))
    (hCC : ((crossTable s m).map (ptr_add s.code32flat_start)).Pairwise Apart)
    (hLC : ∀ l ∈ datalowTable s m, ∀ c ∈ crossTable s m,
      Apart (ptr_add s.code32flat_start l) (ptr_add s.code32flat_start c))
    (hLA : ∀ l ∈ datalowTable s m, ∀ e ∈ absTable s m ++ relTable s m,
      Apart (ptr_add s.code32flat_start l) (s.code32init_start + e))
    (hkept : TablesKept s m D (s.code32init_end - s.code32init_start)) :
    (∀ a ∈ absTable s m,
      read32 (reloc_preinit true s memalign_tmp f arg m).mem (D + a)
        = add32 (read32 m (s.code32init_start + a)) (sub32 D s.code32init_start)) ∧
    (∀ r ∈ relTable s m,
      read32 (reloc_preinit true s memalign_tmp f arg m).mem (D + r)
        = sub32 (read32 m (s.code32init_start + r)) (sub32 D s.code32init_start)) ∧
    (∀ c ∈ crossTable s m,
      read32 (reloc_preinit true s memalign_tmp f arg m).mem (ptr_add s.code32flat_start c)
        = add32 (read32 m (ptr_add s.code32flat_start c)) (sub32 D s.code32init_start)) := by
  obtain ⟨m1, m2, m3, m4, m5, -, hmem, h1, h2, h3, h4, h5⟩ :=
    reloc_stages s memalign_tmp f arg m D hinit halloc hD hfit hb hkept
  rw [hmem]
  obtain ⟨hA, hR, hAR⟩ := List.pairwise_append.mp hpw
  -- the low-data patch leaves the originals of the absolute and relative words alone
  have hlow : ∀ e ∈ absTable s m ++ relTable s m,
      read32 m1 (s.code32init_start + e) = read32 m (s.code32init_start + e) := by
    intro e he
    rw [h1]
    apply foldl_patch32_read_out
    intro p hp
    obtain ⟨l, hl, rfl⟩ := List.mem_map.mp hp
    exact hLA l hl e he
  -- the cross patch leaves the words of the destination block alone
  have hcross : ∀ e, e + 4 ≤ s.code32init_end - s.code32init_start →
      read32 m5 (D + e) = read32 m4 (D + e) := by
    intro e he
    rw [h5]
    apply foldl_patch32_read_out
    intro p hp
    obtain ⟨c, hc, rfl⟩ := List.mem_map.mp hp
    have := hC c hc
    unfold Outside at this
    unfold Apart
    omega
  refine ⟨?_, ?_, ?_⟩
  · intro a ha
    have hab := hb a (List.mem_append_left _ ha)
    rw [hcross a hab, h4, foldl_patch32_read_out, h3,
      foldl_patch32_read_in _ _ _ _ (pairwise_apart_shift _ _ hA)
        (List.mem_map.mpr ⟨a, ha, rfl⟩),
      h2, read32_memcpy _ _ _ _ _ hab, hlow a (List.mem_append_left _ ha)]
    · rfl
    · intro p hp
      obtain ⟨e, he, rfl⟩ := List.mem_map.mp hp
      have := hAR a ha e he
      unfold Apart at this ⊢
      omega
  · intro r hr
    have hrb := hb r (List.mem_append_right _ hr)
    rw [hcross r hrb, h4,
      foldl_patch32_read_in _ _ _ _ (pairwise_apart_shift _ _ hR)
        (List.mem_map.mpr ⟨r, hr, rfl⟩),
      h3, foldl_patch32_read_out, h2, read32_memcpy _ _ _ _ _ hrb,
      hlow r (List.mem_append_right _ hr), add_neg32]
    intro p hp
    obtain ⟨e, he, rfl⟩ := List.mem_map.mp hp
    have := hAR e he r hr
    unfold Apart at this ⊢
    omega
  · intro c hc
    have hout := hC c hc
    unfold Outside at hout
    have hrel : read32 m4 (ptr_add s.code32flat_start c)
        = read32 m1 (ptr_add s.code32flat_start c) := by
      rw [h4, foldl_patch32_read_out, h3, foldl_patch32_read_out, h2,
        read32_memcpy_out _ _ _ _ _ (hC c hc)]
      · intro p hp
        obtain ⟨e, he, rfl⟩ := List.mem_map.mp hp
        have := hb e (List.mem_append_left _ he)
        unfold Apart
        omega
      · intro p hp
        obtain ⟨e, he, rfl⟩ := List.mem_map.mp hp
        have := hb e (List.mem_append_right _ he)
        unfold Apart
        omega
    rw [h5, foldl_patch32_read_in _ _ _ _ hCC (List.mem_map.mpr ⟨c, hc, rfl⟩), hrel, h1,
      foldl_patch32_read_out]
    · rfl
    · intro p hp
      obtain ⟨l, hl, rfl⟩ := List.mem_map.mp hp
      exact hLC l hl c hc

theorem reloc_preinit_round_trip_witness :
    read32 (reloc_preinit true sampleSymbols sampleAlloc 0x10030 0 sampleMem).mem
        0x11004 = 0x10008 + 4096 ∧
    read32 (reloc_preinit true sampleSymbols sampleAlloc 0x10030 0 sampleMem).mem
        0x11010 = 2 ^ 32 + 100 - 4096 ∧
    read32 (reloc_preinit true sampleSymbols sampleAlloc 0x10030 0 sampleMem).mem
        0x8100 = 0x10020 + 4096 :=
  have h := reloc_preinit_round_trip sampleSymbols sampleAlloc 0x10030 0 sampleMem 0x11000
    (by decide) (by decide) (by decide) (by decide) (by decide) (by decide) (by decide)
    (by decide) (by decide) (by decide) (by decide) (by decide)
  ⟨h.1 4 (by decide), h.2.1 16 (by decide), h.2.2 0x100 (by decide)⟩

/-- C2: entry-function adjustment.  With relocation enabled and a successful allocation,
the calls of `reloc_preinit` are the allocation, the low-data patch, the copy, the
absolute, relative and cross patches, the barrier and last the entry function, called with
`arg` on the memory that holds the copy and every patch.  If
`code32init_start <= f < code32init_end` the function called is at
`f + delta = codedest + (f - code32init_start)` (32-bit pointer arithmetic), which is the
same offset inside the copy when the init region and the block lie in the address space;
otherwise it is `f`. -/
theorem reloc_preinit_entry (s : Symbols)
    (memalign_tmp : Nat → Nat → Nat) (f arg : Nat) (m : Mem)
    (hD : codedest s memalign_tmp ≠ 0) :
    (reloc_preinit true s memalign_tmp f arg m).calls =
      [ Call.memalign_tmp s._reloc_min_align (initsize s),
        Call.dprintf,
        Call.updateRelocs s.code32flat_start s._reloc_datalow_start s._reloc_datalow_end
          (datalowdelta s),
        Call.dprintf,
        Call.memcpy (codedest s memalign_tmp) s.code32init_start (initsize s),
        Call.updateRelocs (codedest s memalign_tmp) s._reloc_abs_start s._reloc_abs_end
          (initdelta s memalign_tmp),
        Call.updateRelocs (codedest s memalign_tmp) s._reloc_rel_start s._reloc_rel_end
          (neg32 (initdelta s memalign_tmp)),
        Call.updateRelocs s.code32flat_start s._reloc_init_start s._reloc_init_end
          (initdelta s memalign_tmp),
        Call.barrier,
        Call.func (relocFunc s memalign_tmp f) arg ] ∧
    (reloc_preinit true s memalign_tmp f arg m).mem =
      updateRelocs
        (updateRelocs
          (updateRelocs
            (memcpy
              (updateRelocs m s.code32flat_start s._reloc_datalow_start
                s._reloc_datalow_end (datalowdelta s))
              (codedest s memalign_tmp) s.code32init_start (initsize s))
            (codedest s memalign_tmp) s._reloc_abs_start s._reloc_abs_end
            (initdelta s memalign_tmp))
          (codedest s memalign_tmp) s._reloc_rel_start s._reloc_rel_end
          (neg32 (initdelta s memalign_tmp)))
        s.code32flat_start s._reloc_init_start s._reloc_init_end (initdelta s memalign_tmp) ∧
    (s.code32init_start ≤ f ∧ f < s.code32init_end →
      relocFunc s memalign_tmp f = ptr_add f (initdelta s memalign_tmp) ∧
      relocFunc s memalign_tmp f
        = ptr_add (codedest s memalign_tmp) (f - s.code32init_start) ∧
      (s.code32init_end < 2 ^ 32 → codedest s memalign_tmp + initsize s ≤ 2 ^ 32 →
        relocFunc s memalign_tmp f = codedest s memalign_tmp + (f - s.code32init_start) ∧
        codedest s memalign_tmp ≤ relocFunc s memalign_tmp f ∧
        relocFunc s memalign_tmp f < codedest s memalign_tmp + initsize s)) ∧
    (¬ (s.code32init_start ≤ f ∧ f < s.code32init_end) → relocFunc s memalign_tmp f = f) := by
  refine ⟨by simp [reloc_preinit, hD], reloc_preinit_mem s memalign_tmp f arg m hD, ?_, ?_⟩
  · intro hf
    have hF : relocFunc s memalign_tmp f = ptr_add f (initdelta s memalign_tmp) := by
      unfold relocFunc
      rw [if_pos hf]
    have hmod : ptr_add f (initdelta s memalign_tmp)
        = ptr_add (codedest s memalign_tmp) (f - s.code32init_start) := by
      unfold ptr_add initdelta sub32
      omega
    refine ⟨hF, hF.trans hmod, ?_⟩
    intro hend hfit
    have hsize := initsize_eq s ⟨by omega, hend⟩
    have hval : ptr_add (codedest s memalign_tmp) (f - s.code32init_start)
        = codedest s memalign_tmp + (f - s.code32init_start) :=
      ptr_add_eq _ _ (by omega)
    rw [hF, hmod, hval]
    refine ⟨rfl, ?_, ?_⟩ <;> omega
  · intro hf
    unfold relocFunc
    rw [if_neg hf]

theorem reloc_preinit_entry_witness :
    (reloc_preinit true sampleSymbols sampleAlloc 0x10030 7 sampleMem).calls.getLast?
      = some (Call.func 0x11030 7) ∧
    relocFunc sampleSymbols sampleAlloc 0x9000 = 0x9000 :=
  have h := reloc_preinit_entry sampleSymbols sampleAlloc 0x10030 7 sampleMem (by decide)
  have h' := reloc_preinit_entry sampleSymbols sampleAlloc 0x9000 7 sampleMem (by decide)
  ⟨by rw [h.1, ((h.2.2.1 (by decide)).2.2 (by decide) (by decide)).1]; rfl,
    h'.2.2.2 (by decide)⟩

/-- C3: allocation failure is fatal.  With relocation enabled, when `memalign_tmp`
returns `NULL` the run of `reloc_preinit` ends in `panic` right after the allocation:
memory is unchanged, no patch and no copy is made and the entry function is not called. -/
theorem reloc_preinit_alloc_failure (s : Symbols)
    (memalign_tmp : Nat → Nat → Nat) (f arg : Nat) (m : Mem)
    (hD : codedest s memalign_tmp = 0) :
    (reloc_preinit true s memalign_tmp f arg m).mem = m ∧
    (reloc_preinit true s memalign_tmp f arg m).calls =
      [ Call.memalign_tmp s._reloc_min_align (initsize s), Call.panic ] ∧
    (∀ a b, Call.func a b ∉ (reloc_preinit true s memalign_tmp f arg m).calls) ∧
    (∀ d a b c, Call.updateRelocs d a b c ∉
      (reloc_preinit true s memalign_tmp f arg m).calls) ∧
    (∀ d a n, Call.memcpy d a n ∉ (reloc_preinit true s memalign_tmp f arg m).calls) ∧
    (reloc_preinit true s memalign_tmp f arg m).mems = [m, m] := by
  have hc : (reloc_preinit true s memalign_tmp f arg m).calls =
      [ Call.memalign_tmp s._reloc_min_align (initsize s), Call.panic ] := by
    simp [reloc_preinit, hD]
  refine ⟨by simp [reloc_preinit, hD], hc, ?_, ?_, ?_, by simp [reloc_preinit, hD]⟩
  · intro a b; rw [hc]; simp
  · intro d a b c; rw [hc]; simp
  · intro d a n; rw [hc]; simp

theorem reloc_preinit_alloc_failure_witness :
    (reloc_preinit true sampleSymbols failingAlloc 0x10030 7 sampleMem).mem
      = sampleMem ∧
    (reloc_preinit true sampleSymbols failingAlloc 0x10030 7 sampleMem).calls
      = [Call.memalign_tmp 16 64, Call.panic] :=
  have h := reloc_preinit_alloc_failure sampleSymbols failingAlloc 0x10030 7
    sampleMem (by decide)
  ⟨h.1, h.2.1⟩

/-- C9 (counterexample): in the sample layout with the low-data entry `0x1000`, the
destination block is disjoint from the init region, the absolute and relative entries are
in bounds and no cross or low-data word lies in the block; but the low-data word is the
slot of the absolute table, so the absolute patch (the sixth call) writes the word at
`0x21004`, outside the copy `[0x11000, 0x11040)`. -/
theorem reloc_preinit_patch_outside_copy :
    (0x11000 + 0x40 ≤ sampleSymbols.code32init_start ∨
      sampleSymbols.code32init_end ≤ 0x11000) ∧
    (∀ e ∈ absTable sampleSymbols aliasMem ++ relTable sampleSymbols aliasMem,
      e + 4 ≤ 0x40) ∧
    (∀ c ∈ crossTable sampleSymbols aliasMem ++ datalowTable sampleSymbols aliasMem,
      Outside (ptr_add 0x8000 c) 0x11000 0x40) ∧
    (reloc_preinit true sampleSymbols sampleAlloc 0x10030 0 aliasMem).calls[5]?
      = some (Call.updateRelocs 0x11000 0x9000 0x9004 0x1000) ∧
    ((reloc_preinit true sampleSymbols sampleAlloc 0x10030 0 aliasMem).mems[4]?.map
      (fun mm => read32 mm 0x21004)) = some 0 ∧
    ((reloc_preinit true sampleSymbols sampleAlloc 0x10030 0 aliasMem).mems[5]?.map
      (fun mm => read32 mm 0x21004)) = some 0x1000 ∧
    ¬ (0x11000 ≤ 0x21004 ∧ 0x21004 < 0x11000 + 0x40) := by
  decide

/-- C9 (amended): verbatim copy frame.  With relocation enabled, a successful allocation of
a block `D` inside the address space and disjoint from the init region, absolute and
relative entries in bounds, and tables whose storage is left alone (no slot in the block,
under a low-data word or under a cross word): the fifth, sixth and seventh calls of
`reloc_preinit` are the copy and the absolute and relative patches; in the memory after
them every byte of the copy that no word of the absolute or relative table covers equals
the byte at the same offset of the init region at the moment of the copy, and so it is in
the memory `reloc_preinit` ends with when no cross word lies in the block; and the
absolute and the relative patch change no byte outside `[D, D + initsize)`, so none of the
init region.  The tables are the ones the initial memory holds. -/
theorem reloc_preinit_copy_frame (s : Symbols) (memalign_tmp : Nat → Nat → Nat)
    (f arg : Nat) (m : Mem) (D : Nat)
    (hinit : s.code32init_start ≤ s.code32init_end ∧ s.code32init_end < 2 ^ 32)
    (halloc : memalign_tmp s._reloc_min_align (s.code32init_end - s.code32init_start) = D)
    (hD : D ≠ 0)
    (hfit : D + (s.code32init_end - s.code32init_start) ≤ 2 ^ 32)
    (hdisj : D + (s.code32init_end - s.code32init_start) ≤ s.code32init_start ∨
      s.code32init_end ≤ D)
    (hb : ∀ e ∈ absTable s m ++ relTable s m,
      e + 4 ≤ s.code32init_end - s.code32init_start)
    (hkept : TablesKept s m D (s.code32init_end - s.code32init_start)) :
    ∃ m1 m2 m3 m4 : Mem,
      (reloc_preinit true s memalign_tmp f arg m).mems =
        [ m, m, m1, m1, m2, m3, m4,
          (reloc_preinit true s memalign_tmp f arg m).mem,
          (reloc_preinit true s memalign_tmp f arg m).mem,
          (reloc_preinit true s memalign_tmp f arg m).mem ] ∧
      (reloc_preinit true s memalign_tmp f arg m).calls[4]? = some
        (Call.memcpy D s.code32init_start (s.code32init_end - s.code32init_start)) ∧
      (reloc_preinit true s memalign_tmp f arg m).calls[5]? = some
        (Call.updateRelocs D s._reloc_abs_start s._reloc_abs_end
          (sub32 D s.code32init_start)) ∧
      (reloc_preinit true s memalign_tmp f arg m).calls[6]? = some
        (Call.updateRelocs D s._reloc_rel_start s._reloc_rel_end
          (neg32 (sub32 D s.code32init_start))) ∧
      (∀ x, x < s.code32init_end - s.code32init_start →
        (∀ e ∈ absTable s m ++ relTable s m, x < e ∨ e + 4 ≤ x) →
        m4 (D + x) = m1 (s.code32init_start + x)) ∧
      ((∀ c ∈ crossTable s m,
          Outside (ptr_add s.code32flat_start c) D
            (s.code32init_end - s.code32init_start)) →
        ∀ x, x < s.code32init_end - s.code32init_start →
        (∀ e ∈ absTable s m ++ relTable s m, x < e ∨ e + 4 ≤ x) →
        (reloc_preinit true s memalign_tmp f arg m).mem (D + x)
          = m1 (s.code32init_start + x)) ∧
      (∀ x, (x < D ∨ D + (s.code32init_end - s.code32init_start) ≤ x) →
        m3 x = m2 x ∧ m4 x = m3 x) ∧
      (∀ x, s.code32init_start ≤ x → x < s.code32init_end →
        m3 x = m2 x ∧ m4 x = m3 x) := by
  obtain ⟨m1, m2, m3, m4, m5, hmems, hmem, -, h2, h3, h4, h5⟩ :=
    reloc_stages s memalign_tmp f arg m D hinit halloc hD hfit hb hkept
  have hsz := initsize_eq s hinit
  have hcd : codedest s memalign_tmp = D := by
    unfold codedest
    rw [hsz, halloc]
  have hdl : initdelta s memalign_tmp = sub32 D s.code32init_start := by
    unfold initdelta
    rw [hcd]
  have hcalls : (reloc_preinit true s memalign_tmp f arg m).calls =
      [ Call.memalign_tmp s._reloc_min_align (s.code32init_end - s.code32init_start),
        Call.dprintf,
        Call.updateRelocs s.code32flat_start s._reloc_datalow_start s._reloc_datalow_end
          (datalowdelta s),
        Call.dprintf,
        Call.memcpy D s.code32init_start (s.code32init_end - s.code32init_start),
        Call.updateRelocs D s._reloc_abs_start s._reloc_abs_end (sub32 D s.code32init_start),
        Call.updateRelocs D s._reloc_rel_start s._reloc_rel_end
          (neg32 (sub32 D s.code32init_start)),
        Call.updateRelocs s.code32flat_start s._reloc_init_start s._reloc_init_end
          (sub32 D s.code32init_start),
        Call.barrier,
        Call.func (relocFunc s memalign_tmp f) arg ] := by
    have hD' : codedest s memalign_tmp ≠ 0 := by rw [hcd]; exact hD
    simp only [reloc_preinit, Bool.not_true, Bool.false_eq_true, if_false, if_neg hD', hcd,
      hdl, hsz, if_neg hD]
  -- the absolute and relative patches stay in the block
  have hinA : ∀ p ∈ (absTable s m).map (fun e => D + e), ∀ x,
      (x < D ∨ D + (s.code32init_end - s.code32init_start) ≤ x) → x < p ∨ p + 4 ≤ x := by
    intro p hp x hx
    obtain ⟨e, he, rfl⟩ := List.mem_map.mp hp
    have := hb e (List.mem_append_left _ he)
    omega
  have hinR : ∀ p ∈ (relTable s m).map (fun e => D + e), ∀ x,
      (x < D ∨ D + (s.code32init_end - s.code32init_start) ≤ x) → x < p ∨ p + 4 ≤ x := by
    intro p hp x hx
    obtain ⟨e, he, rfl⟩ := List.mem_map.mp hp
    have := hb e (List.mem_append_right _ he)
    omega
  have hframe : ∀ x, (x < D ∨ D + (s.code32init_end - s.code32init_start) ≤ x) →
      m3 x = m2 x ∧ m4 x = m3 x := by
    intro x hx
    constructor
    · rw [h3]
      exact foldl_patch32_byte_out _ _ _ _ (fun p hp => hinA p hp x hx)
    · rw [h4]
      exact foldl_patch32_byte_out _ _ _ _ (fun p hp => hinR p hp x hx)
  have hcopy : ∀ x, x < s.code32init_end - s.code32init_start →
      (∀ e ∈ absTable s m ++ relTable s m, x < e ∨ e + 4 ≤ x) →
      m4 (D + x) = m1 (s.code32init_start + x) := by
    intro x hx hcov
    rw [h4, foldl_patch32_byte_out, h3, foldl_patch32_byte_out, h2, memcpy_in _ _ _ _ _ hx]
    · intro p hp
      obtain ⟨e, he, rfl⟩ := List.mem_map.mp hp
      have := hcov e (List.mem_append_left _ he)
      omega
    · intro p hp
      obtain ⟨e, he, rfl⟩ := List.mem_map.mp hp
      have := hcov e (List.mem_append_right _ he)
      omega
  refine ⟨m1, m2, m3, m4, by rw [hmems, hmem], by rw [hcalls]; rfl, by rw [hcalls]; rfl,
    by rw [hcalls]; rfl, hcopy, ?_, hframe, fun x hx1 hx2 => hframe x (by omega)⟩
  intro hC x hx hcov
  rw [hmem, h5, foldl_patch32_byte_out, hcopy x hx hcov]
  intro p hp
  obtain ⟨c, hc, rfl⟩ := List.mem_map.mp hp
  have := hC c hc
  unfold Outside at this
  omega

theorem reloc_preinit_copy_frame_witness :
    (reloc_preinit true sampleSymbols sampleAlloc 0x10030 0 sampleMem).mem (0x11000 + 32)
      = 0x5a := by
  obtain ⟨m1, m2, m3, m4, hmems, -, -, -, -, hfin, -, -⟩ :=
    reloc_preinit_copy_frame sampleSymbols sampleAlloc 0x10030 0 sampleMem 0x11000
      (by decide) (by decide) (by decide) (by decide) (by decide) (by decide) (by decide)
  have h1 : m1 = updateRelocs sampleMem 0x8000 0x900c 0x9010 0x10000 := by
    have e : (reloc_preinit true sampleSymbols sampleAlloc 0x10030 0 sampleMem).mems[2]?
        = some m1 := by rw [hmems]; rfl
    exact (Option.some.inj e).symm
  rw [hfin (by decide) 32 (by decide) (by decide), h1]
  decide

/-- C10 (counterexample): for the base `0x10000` and the table `[0x104, 0x10]` stored at
`[0x10100, 0x10108)` the two entries are more than 4 bytes apart and so are the words they
name, but the first word is the slot of the second entry: the pass with `0x20` turns that
entry into `0x30`, and after the pass with `-0x20` the words at `0x10010` and `0x10030`,
zero at first, hold `0xffffffe0` and `0x20`. -/
theorem updateRelocs_round_trip_self_table :
    relocEntries selfTableMem 0x10100 0x10108 = [0x104, 0x10] ∧
    (∀ p ∈ relocAddrs selfTableMem 0x10000 0x10100 0x10108,
      ∀ q ∈ relocAddrs selfTableMem 0x10000 0x10100 0x10108, p = q ∨ Apart p q) ∧
    read32 selfTableMem 0x10010 = 0 ∧
    read32 selfTableMem 0x10030 = 0 ∧
    read32 (updateRelocs (updateRelocs selfTableMem 0x10000 0x10100 0x10108 0x20)
      0x10000 0x10100 0x10108 (neg32 0x20)) 0x10010 = 0xffffffe0 ∧
    read32 (updateRelocs (updateRelocs selfTableMem 0x10000 0x10100 0x10108 0x20)
      0x10000 0x10100 0x10108 (neg32 0x20)) 0x10030 = 0x20 := by
  decide

/-- C10 (amended): `updateRelocs` is undone by the negated displacement.  For every
memory, base, displacement and table whose patched words pairwise coincide or share no
byte (an entry may be listed several times, no two words overlap in part) and share no
byte with a slot of the table: `updateRelocs` with `delta` followed by `updateRelocs` with
the same table and `-delta` restores every byte; after a single pass the word of an entry
listed `k` times has changed by `k * delta` modulo `2^32`; and with `rstart >= rend`
nothing changes.  The table is the one the initial memory holds at `[rstart, rend)`. -/
theorem updateRelocs_round_trip (m : Mem) (dest rstart rend delta : Nat)
    (h : ∀ p ∈ relocAddrs m dest rstart rend, ∀ q ∈ relocAddrs m dest rstart rend,
      p = q ∨ Apart p q)
    (hkept : ∀ p ∈ relocAddrs m dest rstart rend, ∀ t ∈ relocSlots rstart rend, Apart p t) :
    updateRelocs (updateRelocs m dest rstart rend delta) dest rstart rend (neg32 delta) = m ∧
    (∀ p ∈ relocAddrs m dest rstart rend,
      read32 (updateRelocs m dest rstart rend delta) p
        = (read32 m p + (relocAddrs m dest rstart rend).count p * delta) % 2 ^ 32) ∧
    (rend ≤ rstart → updateRelocs m dest rstart rend delta = m) := by
  have e1 : updateRelocs m dest rstart rend delta
      = (relocAddrs m dest rstart rend).foldl (patch32 delta) m :=
    updateRelocs_stable m m dest rstart rend delta (fun _ _ => rfl) hkept
  refine ⟨?_, ?_, ?_⟩
  · rw [updateRelocs_stable m (updateRelocs m dest rstart rend delta) dest rstart rend
      (neg32 delta) ?_ hkept, e1]
    · exact foldl_patch32_round_trip delta _ m h
    · intro t ht
      rw [e1]
      exact foldl_patch32_read_out _ _ _ _ (fun p hp => hkept p hp t ht)
  · intro p hp
    rw [e1]
    exact foldl_patch32_read_count delta _ m p (fun q hq => h q hq p hp)
  · intro hle
    unfold updateRelocs
    rw [Nat.sub_eq_zero_of_le hle]
    rfl

theorem updateRelocs_round_trip_witness :
    updateRelocs (updateRelocs sampleDupMem 0x10000 0x9100 0x910c 4096)
      0x10000 0x9100 0x910c (neg32 4096) = sampleDupMem ∧
    read32 (updateRelocs sampleDupMem 0x10000 0x9100 0x910c 4096) 0x10004
      = 0x10008 + 2 * 4096 :=
  have h := updateRelocs_round_trip sampleDupMem 0x10000 0x9100 0x910c 4096
    (by decide) (by decide)
  ⟨h.1, (h.2.1 0x10004 (by decide)).trans (by decide)⟩

end SeaBIOS
